import Mathlib

/-! Shallow embedding of the blackjack reward-distribution engine: the
distribution algebra, rule configuration, state hasher, the recursive
reward-distribution solver (`RewardDistribution`) and the Kelly bettor's
pre-deal aggregation (`KellyBettor.get_distr`), translated from the Cython
source (`kelly_bettor.pyx` and the `reward_distribution` module it embeds).

Modelling conventions:
* C `double`s are modelled as rationals; the probability arithmetic of the
  source is exact in this model.  Division by zero yields `0` in `ℚ`; in the
  source the corresponding `double` division yields `NaN`/`inf`, and every
  such value is discarded by the same `p > 0` guard that discards `0`, so the
  two models agree on all observable results.
* The 17-cell payout arrays are total functions `ℕ → ℚ` that every
  constructor leaves at `0` outside `[0,16]`; the 14-cell shoe arrays are
  functions `ℕ → ℤ`.
* The solver's single mutable shoe is threaded explicitly: every operation
  takes the shoe it starts from and returns the shoe it leaves behind, so the
  in-place decrement/restore pairs of the source are visible in the model.
* The unbounded recursion of the solver is modelled with a fuel parameter;
  `none` means the fuel ran out, and every claim is stated on successful
  (`some`) runs.  Every call, including the per-card accumulation loops,
  consumes one unit of fuel.
* The memoization cache is omitted: it is keyed by `get_state_hash` applied
  to the entire mutable state (shoe, hand totals, aces, mode), the key is
  injective on the states used (proved below for the hasher), and each cache
  entry holds exactly the distribution that the corresponding computation
  produces, so the memoized program computes the same function as the
  uncached semantics modelled here. -/

set_option maxHeartbeats 1000000

abbrev Distr := ℕ → ℚ

abbrev Shoe := ℕ → ℤ

namespace RD

/-- `get_value` from the source: card 1 is an ace worth 11, cards 2..9 are
worth their face value, cards 10..13 are worth 10. -/
def get_value (card : ℕ) : ℕ :=
  if card = 1 then 11 else if card < 10 then card else 10

/-- `is_ace` from the reward-distribution module: tests a card *value*. -/
def is_ace (card_value : ℕ) : ℕ := if card_value = 11 then 1 else 0

/-- `add(distr1, distr2, scalar)`: `distr1[i] += scalar * distr2[i]`,
returned functionally. -/
def add (distr1 distr2 : Distr) (scalar : ℚ) : Distr :=
  fun i => distr1 i + scalar * distr2 i

/-- `empty_distr()`: a zero-initialised 17-cell array. -/
def empty_distr : Distr := fun _ => 0

/-- `constant_distr(value)`: mass 1 in cell `value*2 + 8`. -/
def constant_distr (value : ℚ) : Distr :=
  fun i => if (i : ℚ) = value * 2 + 8 then 1 else 0

/-- `double_distr`: the write loop `tmp[2*i-8] = distr[i]` for
`i ∈ range(4,13)` over a zero-initialised temporary, which then replaces the
argument. -/
def double_distr (distr : Distr) : Distr :=
  (List.range' 4 9).foldl (fun tmp i => Function.update tmp (2 * i - 8) (distr i))
    (fun _ => 0)

/-- `double_variable`: the accumulation loop `tmp[i+j-8] += distr[i]*distr[j]`
for `i, j ∈ range(17)` with `i + j < 25` and `i + j ≥ 8`, over a
zero-initialised temporary, which then replaces the argument. -/
def double_variable (distr : Distr) : Distr :=
  (List.range 17).foldl
    (fun tmp i =>
      (List.range 17).foldl
        (fun tmp2 j =>
          if i + j < 25 ∧ 8 ≤ i + j then
            Function.update tmp2 (i + j - 8) (tmp2 (i + j - 8) + distr i * distr j)
          else tmp2)
        tmp)
    (fun _ => 0)

/-- The process-wide `rule_variation` record consulted by the solver. -/
structure Rules where
  HIT_SOFT_17 : Bool
  DEALER_PEEKS : Bool
  DOUBLE_AFTER_SPLIT : Bool
  HIT_AFTER_SPLIT_ACES : Bool
  BLACKJACK_WITH_SPLIT_ACES : Bool
  SPLIT_UNEVEN : Bool
  BLACKJACK_PAYOUT : ℚ
  SHOE_SIZE : ℕ

/-- The state a constructed solver carries: the rule record it reads and the
17-entry utility table filled in by `__cinit__`. -/
structure Cfg where
  rules : Rules
  utility : ℕ → ℚ

/-- The three configuration complaints `__cinit__` can print. -/
inductive CfgError where
  | blackjack_payout_exception
  | shoe_size_exception
  | dealer_peeks_exception
deriving DecidableEq

/-- `RewardDistribution.__cinit__`: fills the utility table with
`utility_function((i-8)/2)` and checks the three rule constraints.  The
source only *prints* a message for each violated constraint (the
`# Raise error` comments are not implemented and the branches fall through
with `pass`), so construction always yields an object; the printed messages
are collected in the first component. -/
def cinit (R : Rules) (utility_function : ℚ → ℚ) : List CfgError × Cfg :=
  ((if R.BLACKJACK_PAYOUT ≠ 3 / 2 then [CfgError.blackjack_payout_exception] else []) ++
      (if 25 ≤ R.SHOE_SIZE then [CfgError.shoe_size_exception] else []) ++
      (if R.DEALER_PEEKS = false then [CfgError.dealer_peeks_exception] else []),
    ⟨R, fun i => utility_function (((i : ℚ) - 8) / 2)⟩)

/-- The card indices `1..13` iterated by every `for card in range(1,14)`. -/
def cards13 : List ℕ := List.range' 1 13

/-- Sum of a rational quantity over a list of card indices. -/
def sumOver (l : List ℕ) (f : ℕ → ℚ) : ℚ := (l.map f).sum

/-- `card_probability(card, banned_value)`: zero the counts of the banned
value, sum the remainder and divide. -/
def card_probability (card_distr : Shoe) (card : ℕ) (banned_value : ℕ) : ℚ :=
  (if banned_value = get_value card then 0 else (card_distr card : ℚ)) /
    sumOver cards13 (fun i => if banned_value = get_value i then 0 else (card_distr i : ℚ))

/-- `distribution_value`: dot product of a distribution with the utility
table. -/
def distribution_value (cfg : Cfg) (distr : Distr) : ℚ :=
  ((List.range 17).map (fun i => distr i * cfg.utility i)).sum

/-- Sum of the 17 cells of a payout array. -/
def massOf (distr : Distr) : ℚ := ((List.range 17).map distr).sum

/-- `get_state_hash(player_total, aces, dealer_total, mode)`: positional
decimal packing of the whole mutable state into one integer. -/
def get_state_hash (card_distr : Shoe) (player_total aces dealer_total mode : ℕ) : ℤ :=
  let p := cards13.foldl (fun (p : ℤ × ℤ) i => (p.1 + p.2 * card_distr i, p.2 * 100))
    ((mode : ℤ), 10)
  p.1 + p.2 * player_total + p.2 * 100 * dealer_total + p.2 * 100 * 100 * aces

def CONSTANT_TIE : Distr := constant_distr 0

def CONSTANT_WIN : Distr := constant_distr 1

def CONSTANT_BLACKJACK : Distr := constant_distr (3 / 2)

def CONSTANT_LOSE : Distr := constant_distr (-1)

/-- `self.card_distr[card] -= 1`. -/
def decS (s : Shoe) (card : ℕ) : Shoe := fun i => if i = card then s i - 1 else s i

/-- `self.card_distr[card] += 1`. -/
def incS (s : Shoe) (card : ℕ) : Shoe := fun i => if i = card then s i + 1 else s i

/-- The `banned_value` assembled at the top of `distr_stand`'s draw branch:
`0`, overwritten with `11` when the dealer shows a ten and this is the first
(hidden-card) draw, and with `10` when the dealer shows an ace. -/
def stand_banned (dealer_total : ℕ) (first_call : Bool) : ℕ :=
  if first_call then
    if dealer_total = 10 then 11 else if dealer_total = 11 then 10 else 0
  else 0

/-- `distr_blackjack`: the player holds a two-card 21.  Pure on the shoe. -/
def distr_blackjack (cfg : Cfg) (shoe : Shoe) (dealer_total : ℕ) : Distr × Shoe :=
  if dealer_total < 10 then (CONSTANT_BLACKJACK, shoe)
  else
    let p :=
      if dealer_total = 10 then card_probability shoe 1 0
      else
        card_probability shoe 10 0 + card_probability shoe 11 0 +
          card_probability shoe 12 0 + card_probability shoe 13 0
    (add (add empty_distr CONSTANT_TIE p) CONSTANT_BLACKJACK (1 - p), shoe)

mutual

/-- `distr_hit`: one more card, then optimal play. -/
def distr_hit : ℕ → Cfg → Shoe → ℕ → ℕ → ℕ → Option (Distr × Shoe)
  | 0, _, _, _, _, _ => none
  | n + 1, cfg, shoe, player_total, player_aces, dealer_total =>
    if 21 < player_total then
      if 0 < player_aces then
        distr_hit n cfg shoe (player_total - 10) (player_aces - 1) dealer_total
      else some (CONSTANT_LOSE, shoe)
    else hitLoop n cfg shoe player_total player_aces dealer_total cards13 empty_distr

  termination_by structural n _ _ _ _ _ => n
/-- The `for card in range(1,14)` accumulation loop of `distr_hit`. -/
def hitLoop : ℕ → Cfg → Shoe → ℕ → ℕ → ℕ → List ℕ → Distr → Option (Distr × Shoe)
  | 0, _, _, _, _, _, _, _ => none
  | _ + 1, _, shoe, _, _, _, [], distr => some (distr, shoe)
  | n + 1, cfg, shoe, player_total, player_aces, dealer_total, card :: rest, distr =>
    if 0 < card_probability shoe card 0 then
      match distr_hit_stand n cfg (decS shoe card) (player_total + get_value card)
          (player_aces + is_ace (get_value card)) dealer_total with
      | none => none
      | some (d, s1) =>
        hitLoop n cfg (incS s1 card) player_total player_aces dealer_total rest
          (add distr d (card_probability shoe card 0))
    else hitLoop n cfg shoe player_total player_aces dealer_total rest distr

  termination_by structural n _ _ _ _ _ _ _ => n
/-- `distr_stand`: the player stands and the dealer draws to completion. -/
def distr_stand : ℕ → Cfg → Shoe → ℕ → ℕ → ℕ → Bool → Option (Distr × Shoe)
  | 0, _, _, _, _, _, _ => none
  | n + 1, cfg, shoe, player_total, dealer_aces, dealer_total, first_call =>
    if 21 < player_total then some (CONSTANT_LOSE, shoe)
    else if 21 < dealer_total then
      if 0 < dealer_aces then
        distr_stand n cfg shoe player_total (dealer_aces - 1) (dealer_total - 10) false
      else some (CONSTANT_WIN, shoe)
    else if 17 < dealer_total ∨
        (dealer_total = 17 ∧ (dealer_aces = 0 ∨ cfg.rules.HIT_SOFT_17 = false)) then
      if dealer_total = player_total then some (CONSTANT_TIE, shoe)
      else if player_total < dealer_total then some (CONSTANT_LOSE, shoe)
      else some (CONSTANT_WIN, shoe)
    else
      standLoop n cfg shoe player_total dealer_aces dealer_total
        (stand_banned dealer_total first_call) cards13 empty_distr

  termination_by structural n _ _ _ _ _ _ => n
/-- The dealer-draw accumulation loop of `distr_stand`. -/
def standLoop : ℕ → Cfg → Shoe → ℕ → ℕ → ℕ → ℕ → List ℕ → Distr → Option (Distr × Shoe)
  | 0, _, _, _, _, _, _, _, _ => none
  | _ + 1, _, shoe, _, _, _, _, [], distr => some (distr, shoe)
  | n + 1, cfg, shoe, player_total, dealer_aces, dealer_total, banned_value, card :: rest,
      distr =>
    if 0 < card_probability shoe card banned_value then
      match distr_stand n cfg (decS shoe card) player_total
          (dealer_aces + is_ace (get_value card)) (dealer_total + get_value card) false with
      | none => none
      | some (d, s1) =>
        standLoop n cfg (incS s1 card) player_total dealer_aces dealer_total banned_value
          rest (add distr d (card_probability shoe card banned_value))
    else
      standLoop n cfg shoe player_total dealer_aces dealer_total banned_value rest distr

  termination_by structural n _ _ _ _ _ _ _ _ => n
/-- `distr_double`: one forced card, forced stand, payout doubled. -/
def distr_double : ℕ → Cfg → Shoe → ℕ → ℕ → ℕ → Option (Distr × Shoe)
  | 0, _, _, _, _, _ => none
  | n + 1, cfg, shoe, player_total, player_aces, dealer_total =>
    match doubleLoop n cfg shoe player_total player_aces dealer_total cards13 empty_distr with
    | none => none
    | some (d, s1) => some (double_distr d, s1)

  termination_by structural n _ _ _ _ _ => n
/-- The accumulation loop of `distr_double`. -/
def doubleLoop : ℕ → Cfg → Shoe → ℕ → ℕ → ℕ → List ℕ → Distr → Option (Distr × Shoe)
  | 0, _, _, _, _, _, _, _ => none
  | _ + 1, _, shoe, _, _, _, [], distr => some (distr, shoe)
  | n + 1, cfg, shoe, player_total, player_aces, dealer_total, card :: rest, distr =>
    if 0 < card_probability shoe card 0 then
      match distr_stand n cfg (decS shoe card)
          (if 21 < player_total + get_value card ∧
              0 < player_aces + is_ace (get_value card) then
            player_total + get_value card - 10
          else player_total + get_value card)
          (is_ace dealer_total) dealer_total true with
      | none => none
      | some (d, s1) =>
        doubleLoop n cfg (incS s1 card) player_total player_aces dealer_total rest
          (add distr d (card_probability shoe card 0))
    else doubleLoop n cfg shoe player_total player_aces dealer_total rest distr

  termination_by structural n _ _ _ _ _ _ _ => n
/-- `distr_split_general`: split of two equal non-ten, non-ace cards. -/
def distr_split_general : ℕ → Cfg → Shoe → ℕ → ℕ → Option (Distr × Shoe)
  | 0, _, _, _, _ => none
  | n + 1, cfg, shoe, player_card, dealer_total =>
    match sgLoop n cfg shoe player_card dealer_total cards13 empty_distr with
    | none => none
    | some (d, s1) => some (double_variable d, s1)

  termination_by structural n _ _ _ _ => n
/-- The accumulation loop of `distr_split_general`. -/
def sgLoop : ℕ → Cfg → Shoe → ℕ → ℕ → List ℕ → Distr → Option (Distr × Shoe)
  | 0, _, _, _, _, _, _ => none
  | _ + 1, _, shoe, _, _, [], distr => some (distr, shoe)
  | n + 1, cfg, shoe, player_card, dealer_total, card :: rest, distr =>
    if 0 < card_probability shoe card 0 then
      match
        (if cfg.rules.DOUBLE_AFTER_SPLIT then
          distr_hit_stand_double n cfg (decS shoe card) (player_card + get_value card)
            (is_ace (get_value card)) dealer_total
        else
          distr_hit_stand n cfg (decS shoe card) (player_card + get_value card)
            (is_ace (get_value card)) dealer_total) with
      | none => none
      | some (d, s1) =>
        sgLoop n cfg (incS s1 card) player_card dealer_total rest
          (add distr d (card_probability shoe card 0))
    else sgLoop n cfg shoe player_card dealer_total rest distr

  termination_by structural n _ _ _ _ _ _ => n
/-- `distr_split_tens`: split of two ten-valued cards; an ace drawn on a
sub-hand pays blackjack. -/
def distr_split_tens : ℕ → Cfg → Shoe → ℕ → Option (Distr × Shoe)
  | 0, _, _, _ => none
  | n + 1, cfg, shoe, dealer_total =>
    match stLoop n cfg shoe dealer_total (List.range' 2 12) empty_distr with
    | none => none
    | some (d, s1) =>
      some
        (double_variable
          (if 0 < card_probability s1 1 0 then
            add d CONSTANT_BLACKJACK (card_probability s1 1 0)
          else d),
          s1)

  termination_by structural n _ _ _ => n
/-- The `for card in range(2,14)` loop of `distr_split_tens`. -/
def stLoop : ℕ → Cfg → Shoe → ℕ → List ℕ → Distr → Option (Distr × Shoe)
  | 0, _, _, _, _, _ => none
  | _ + 1, _, shoe, _, [], distr => some (distr, shoe)
  | n + 1, cfg, shoe, dealer_total, card :: rest, distr =>
    if 0 < card_probability shoe card 0 then
      match
        (if cfg.rules.DOUBLE_AFTER_SPLIT then
          distr_hit_stand_double n cfg (decS shoe card) (10 + get_value card) 0 dealer_total
        else
          distr_hit_stand n cfg (decS shoe card) (10 + get_value card) 0 dealer_total) with
      | none => none
      | some (d, s1) =>
        stLoop n cfg (incS s1 card) dealer_total rest
          (add distr d (card_probability shoe card 0))
    else stLoop n cfg shoe dealer_total rest distr

  termination_by structural n _ _ _ _ _ => n
/-- `distr_split_aces`: split of two aces. -/
def distr_split_aces : ℕ → Cfg → Shoe → ℕ → Option (Distr × Shoe)
  | 0, _, _, _ => none
  | n + 1, cfg, shoe, dealer_total =>
    match saLoopLow n cfg shoe dealer_total (List.range' 1 9) empty_distr with
    | none => none
    | some (d1, s1) =>
      match saLoopHigh n cfg s1 dealer_total (List.range' 10 4) d1 with
      | none => none
      | some (d2, s2) => some (double_variable d2, s2)

  termination_by structural n _ _ _ => n
/-- The `for card in range(1,10)` loop of `distr_split_aces`. -/
def saLoopLow : ℕ → Cfg → Shoe → ℕ → List ℕ → Distr → Option (Distr × Shoe)
  | 0, _, _, _, _, _ => none
  | _ + 1, _, shoe, _, [], distr => some (distr, shoe)
  | n + 1, cfg, shoe, dealer_total, card :: rest, distr =>
    if 0 < card_probability shoe card 0 then
      match
        (if cfg.rules.HIT_AFTER_SPLIT_ACES then
          if cfg.rules.DOUBLE_AFTER_SPLIT then
            distr_hit_stand_double n cfg (decS shoe card) (11 + card) 1 dealer_total
          else distr_hit_stand n cfg (decS shoe card) (11 + card) 1 dealer_total
        else
          distr_stand n cfg (decS shoe card) (11 + card) (is_ace dealer_total) dealer_total
            true) with
      | none => none
      | some (d, s1) =>
        saLoopLow n cfg (incS s1 card) dealer_total rest
          (add distr d (card_probability shoe card 0))
    else saLoopLow n cfg shoe dealer_total rest distr

  termination_by structural n _ _ _ _ _ => n
/-- The `for card in range(10,14)` loop of `distr_split_aces`. -/
def saLoopHigh : ℕ → Cfg → Shoe → ℕ → List ℕ → Distr → Option (Distr × Shoe)
  | 0, _, _, _, _, _ => none
  | _ + 1, _, shoe, _, [], distr => some (distr, shoe)
  | n + 1, cfg, shoe, dealer_total, card :: rest, distr =>
    if 0 < card_probability shoe card 0 then
      if cfg.rules.BLACKJACK_WITH_SPLIT_ACES then
        saLoopHigh n cfg shoe dealer_total rest
          (add distr CONSTANT_BLACKJACK (card_probability shoe card 0))
      else
        match distr_stand n cfg (decS shoe card) 21 (is_ace dealer_total) dealer_total
            true with
        | none => none
        | some (d, s1) =>
          saLoopHigh n cfg (incS s1 card) dealer_total rest
            (add distr d (card_probability shoe card 0))
    else saLoopHigh n cfg shoe dealer_total rest distr

  termination_by structural n _ _ _ _ _ => n
/-- `distr_split`: dispatcher over the three split cases. -/
def distr_split : ℕ → Cfg → Shoe → ℕ → ℕ → ℕ → Option (Distr × Shoe)
  | 0, _, _, _, _, _ => none
  | n + 1, cfg, shoe, player_total, player_aces, dealer_total =>
    if 0 < player_aces then distr_split_aces n cfg shoe dealer_total
    else if player_total = 20 then distr_split_tens n cfg shoe dealer_total
    else distr_split_general n cfg shoe (player_total / 2) dealer_total

  termination_by structural n _ _ _ _ _ => n
/-- `distr_hit_stand`: max-utility choice between hitting and standing. -/
def distr_hit_stand : ℕ → Cfg → Shoe → ℕ → ℕ → ℕ → Option (Distr × Shoe)
  | 0, _, _, _, _, _ => none
  | n + 1, cfg, shoe, player_total, player_aces, dealer_total =>
    match distr_hit n cfg shoe
        (if 21 < player_total ∧ 0 < player_aces then player_total - 10 else player_total)
        (if 21 < player_total ∧ 0 < player_aces then player_aces - 1 else player_aces)
        dealer_total with
    | none => none
    | some (dh, s1) =>
      match distr_stand n cfg s1
          (if 21 < player_total ∧ 0 < player_aces then player_total - 10 else player_total)
          (is_ace dealer_total) dealer_total true with
      | none => none
      | some (ds, s2) =>
        some
          (if distribution_value cfg dh > distribution_value cfg ds then dh else ds, s2)

  termination_by structural n _ _ _ _ _ => n
/-- `distr_hit_stand_double`: three-way max; a 21 becomes `distr_blackjack`. -/
def distr_hit_stand_double : ℕ → Cfg → Shoe → ℕ → ℕ → ℕ → Option (Distr × Shoe)
  | 0, _, _, _, _, _ => none
  | n + 1, cfg, shoe, player_total, player_aces, dealer_total =>
    if (if 21 < player_total ∧ 0 < player_aces then player_total - 10 else player_total) =
        21 then
      some (distr_blackjack cfg shoe dealer_total)
    else
      match distr_hit_stand n cfg shoe
          (if 21 < player_total ∧ 0 < player_aces then player_total - 10 else player_total)
          (if 21 < player_total ∧ 0 < player_aces then player_aces - 1 else player_aces)
          dealer_total with
      | none => none
      | some (dhs, s1) =>
        match distr_double n cfg s1
            (if 21 < player_total ∧ 0 < player_aces then player_total - 10
            else player_total)
            (if 21 < player_total ∧ 0 < player_aces then player_aces - 1 else player_aces)
            dealer_total with
        | none => none
        | some (dd, s2) =>
          some
            (if distribution_value cfg dhs > distribution_value cfg dd then dhs else dd,
              s2)
  termination_by structural n _ _ _ _ _ => n

end

end RD

namespace KB

/-- `is_ace` from the bettor module: tests a card *index*. -/
def is_ace (card : ℕ) : ℕ := if card = 1 then 1 else 0

/-- `get_probability`: draw three given cards in order, with the transient
decrements and the restoring increments of the source made explicit. -/
def get_probability (distr : Shoe) (card1 card2 card3 : ℕ) : ℚ × Shoe :=
  if RD.sumOver RD.cards13 (fun i => (distr i : ℚ)) < 3 then (0, distr)
  else
    ((distr card1 : ℚ) / RD.sumOver RD.cards13 (fun i => (distr i : ℚ)) *
        ((RD.decS distr card1 card2 : ℤ) / (RD.sumOver RD.cards13 (fun i => (distr i : ℚ)) - 1)) *
        ((RD.decS (RD.decS distr card1) card2 card3 : ℤ) /
          (RD.sumOver RD.cards13 (fun i => (distr i : ℚ)) - 2)),
      RD.incS (RD.incS (RD.decS (RD.decS distr card1) card2) card1) card2)

/-- `get_player`: hand total and soft-ace count of the two initial cards. -/
def get_player (player_first player_second : ℕ) : ℕ × ℕ :=
  if 21 < RD.get_value player_first + RD.get_value player_second then
    (RD.get_value player_first + RD.get_value player_second - 10,
      is_ace player_first + is_ace player_second - 1)
  else
    (RD.get_value player_first + RD.get_value player_second,
      is_ace player_first + is_ace player_second)

/-- `remove_cards`: a copy of the shoe with the three dealt cards removed. -/
def remove_cards (distr : Shoe) (card1 card2 card3 : ℕ) : Shoe :=
  RD.decS (RD.decS (RD.decS distr card1) card2) card3

/-- `get_dealer_blackjack_probability`. -/
def get_dealer_blackjack_probability (card_distr : Shoe) (dealer_total : ℕ) : ℚ :=
  if dealer_total = 10 then
    (card_distr 1 : ℚ) / RD.sumOver RD.cards13 (fun i => (card_distr i : ℚ))
  else
    ((card_distr 10 : ℚ) + (card_distr 11 : ℚ) + (card_distr 12 : ℚ) + (card_distr 13 : ℚ)) /
      RD.sumOver RD.cards13 (fun i => (card_distr i : ℚ))

/-- `matching_cards`: whether the two dealt cards may be split. -/
def matching_cards (R : RD.Rules) (card1 card2 : ℕ) : Bool :=
  if R.SPLIT_UNEVEN then RD.get_value card1 == RD.get_value card2 else card1 == card2

/-- The solver state `KellyBettor.__init__` builds:
`RewardDistribution(lambda x: x)`, i.e. the identity utility. -/
def kb_cfg (R : RD.Rules) : RD.Cfg := ⟨R, fun i => ((i : ℚ) - 8) / 2⟩

/-- The triple nest `for player_first / player_second / dealer_shown in
range(1,14)`, in source iteration order. -/
def triples : List (ℕ × ℕ × ℕ) :=
  (List.range' 1 13).flatMap fun a =>
    (List.range' 1 13).flatMap fun b => (List.range' 1 13).map fun c => (a, b, c)

/-- The body of `KellyBettor.get_distr`, one dealt triple at a time,
threading the bettor's shoe array through `get_probability` and the solver's
shoe through its calls. -/
def betLoop (n : ℕ) (R : RD.Rules) :
    List (ℕ × ℕ × ℕ) → Shoe → Distr → Option (Distr × Shoe)
  | [], card_distr, distr => some (distr, card_distr)
  | (c1, c2, c3) :: rest, card_distr, distr =>
    if (get_probability card_distr c1 c2 c3).1 = 0 then
      betLoop n R rest (get_probability card_distr c1 c2 c3).2 distr
    else
      match RD.distr_hit_stand_double n (kb_cfg R)
          (remove_cards (get_probability card_distr c1 c2 c3).2 c1 c2 c3)
          (get_player c1 c2).1 (get_player c1 c2).2 (RD.get_value c3) with
      | none => none
      | some (d, s1) =>
        match
          (if matching_cards R c1 c2 then
            match RD.distr_split n (kb_cfg R) s1 (get_player c1 c2).1 (get_player c1 c2).2
                (RD.get_value c3) with
            | none => none
            | some (dsp, s2) =>
              some
                (if RD.distribution_value (kb_cfg R) dsp >
                    RD.distribution_value (kb_cfg R) d then dsp
                else d, s2)
          else some (d, s1)) with
        | none => none
        | some (chosen, _) =>
          betLoop n R rest (get_probability card_distr c1 c2 c3).2
            (RD.add
              (RD.add distr chosen
                ((get_probability card_distr c1 c2 c3).1 *
                  (1 -
                    (if RD.get_value c3 < 10 then 0
                    else
                      get_dealer_blackjack_probability
                        (get_probability card_distr c1 c2 c3).2 (RD.get_value c3)))))
              (if (get_player c1 c2).1 = 21 then RD.CONSTANT_TIE else RD.CONSTANT_LOSE)
              ((get_probability card_distr c1 c2 c3).1 *
                (if RD.get_value c3 < 10 then 0
                else
                  get_dealer_blackjack_probability (get_probability card_distr c1 c2 c3).2
                    (RD.get_value c3))))

/-- `KellyBettor.get_distr`. -/
def get_distr (n : ℕ) (R : RD.Rules) (card_distr : Shoe) : Option (Distr × Shoe) :=
  betLoop n R triples card_distr RD.empty_distr

/-- Specification-side draw probability of an ordered 3-card deal (§4.F
step 1): sequential probability over the successively decremented shoe,
without threading a mutable array. -/
def sequential_probability (distr : Shoe) (card1 card2 card3 : ℕ) : ℚ :=
  if RD.sumOver RD.cards13 (fun i => (distr i : ℚ)) < 3 then 0
  else
    (distr card1 : ℚ) / RD.sumOver RD.cards13 (fun i => (distr i : ℚ)) *
      ((RD.decS distr card1 card2 : ℤ) / (RD.sumOver RD.cards13 (fun i => (distr i : ℚ)) - 1)) *
      ((RD.decS (RD.decS distr card1) card2 card3 : ℤ) /
        (RD.sumOver RD.cards13 (fun i => (distr i : ℚ)) - 2))

/-- Specification-side dealer-blackjack probability (§4.F step 6), computed
from the full shoe before the three dealt cards are removed: `0` for a shown
value below 10, the ten-count ratio for a shown ace, the ace-count ratio for
a shown ten. -/
def dealer_blackjack_q (card_distr : Shoe) (c3 : ℕ) : ℚ :=
  if RD.get_value c3 < 10 then 0
  else if RD.get_value c3 = 11 then
    ((card_distr 10 : ℚ) + (card_distr 11 : ℚ) + (card_distr 12 : ℚ) + (card_distr 13 : ℚ)) /
      RD.sumOver RD.cards13 (fun i => (card_distr i : ℚ))
  else (card_distr 1 : ℚ) / RD.sumOver RD.cards13 (fun i => (card_distr i : ℚ))

/-- Specification-side formulation of `get_distr` (§4.F): a pure fold over
the dealt triples against the *unchanged* input shoe — every probability, the
dealer-blackjack correction and the per-triple solver call are taken from the
input shoe with the three dealt cards removed, and nothing is threaded. -/
def betLoopSpec (n : ℕ) (R : RD.Rules) (card_distr : Shoe) :
    List (ℕ × ℕ × ℕ) → Distr → Option Distr
  | [], distr => some distr
  | (c1, c2, c3) :: rest, distr =>
    if sequential_probability card_distr c1 c2 c3 = 0 then
      betLoopSpec n R card_distr rest distr
    else
      match RD.distr_hit_stand_double n (kb_cfg R) (remove_cards card_distr c1 c2 c3)
          (get_player c1 c2).1 (get_player c1 c2).2 (RD.get_value c3) with
      | none => none
      | some (d, _) =>
        match
          (if matching_cards R c1 c2 then
            match RD.distr_split n (kb_cfg R) (remove_cards card_distr c1 c2 c3)
                (get_player c1 c2).1 (get_player c1 c2).2 (RD.get_value c3) with
            | none => none
            | some (dsp, _) =>
              some
                (if RD.distribution_value (kb_cfg R) dsp >
                    RD.distribution_value (kb_cfg R) d then dsp
                else d)
          else some d) with
        | none => none
        | some chosen =>
          betLoopSpec n R card_distr rest
            (RD.add
              (RD.add distr chosen
                (sequential_probability card_distr c1 c2 c3 *
                  (1 - dealer_blackjack_q card_distr c3)))
              (if (get_player c1 c2).1 = 21 then RD.CONSTANT_TIE else RD.CONSTANT_LOSE)
              (sequential_probability card_distr c1 c2 c3 *
                dealer_blackjack_q card_distr c3))

/-- Specification-side `get_distr`. -/
def get_distr_spec (n : ℕ) (R : RD.Rules) (card_distr : Shoe) : Option Distr :=
  betLoopSpec n R card_distr triples RD.empty_distr

end KB

namespace RD

/-- Base-100 positional packing, used to describe `get_state_hash`. -/
def pack100 : List ℤ → ℤ
  | [] => 0
  | x :: l => x + 100 * pack100 l

/-- A rule record inside the supported envelope. -/
def R0 : Rules := ⟨false, true, true, true, true, false, 3 / 2, 1⟩

/-- A rule record with an unsupported blackjack payout. -/
def R_bad : Rules := ⟨false, true, true, true, true, false, 1, 1⟩

/-- The solver state built by `__cinit__` with the identity utility. -/
def cfg0 : Cfg := (cinit R0 (fun x => x)).2

/-- A solver state whose utility table is identically zero (the caller may
pass any scalar function), so every utility comparison is a tie. -/
def cfg0z : Cfg := ⟨R0, fun _ => 0⟩

/-- The empty shoe. -/
def shoeE : Shoe := fun _ => 0

/-- A shoe holding a single rank-5 card. -/
def shoe1 : Shoe := fun i => if i = 5 then 1 else 0

/-- A shoe holding 18 cards of each rank. -/
def shoe18 : Shoe := fun _ => 18

/-- A shoe holding 18 cards of each rank except a single extra deuce. -/
def shoe18b : Shoe := fun i => if i = 2 then 19 else 18

/-- The hit-stand branch computed inside `distr_hit_stand_double` on the
one-card shoe. -/
def c2hsRes : Distr × Shoe := (distr_hit_stand 59 cfg0z shoe1 20 0 7).getD (empty_distr, shoe1)

/-- The double branch computed inside `distr_hit_stand_double` on the
one-card shoe, started from the shoe the hit-stand branch left behind. -/
def c2dRes : Distr × Shoe := (distr_double 59 cfg0z c2hsRes.2 20 0 7).getD (empty_distr, shoe1)

/-- A small successful `distr_hit` run on the empty shoe. -/
def c3res : Distr × Shoe := (distr_hit 20 cfg0 shoeE 12 0 5).getD (empty_distr, shoeE)

/-- A successful `distr_hit` run on a hard 21 against a stocked shoe. -/
def c4res : Distr × Shoe := (distr_hit 20 cfg0 shoe18 21 0 5).getD (empty_distr, shoe18)

end RD

namespace RD

theorem incS_decS (s : Shoe) (c : ℕ) : incS (decS s c) c = s := by
  funext i
  by_cases h : i = c <;> simp [incS, decS, h]

theorem massOf_add (d1 d2 : Distr) (p : ℚ) :
    massOf (add d1 d2 p) = massOf d1 + p * massOf d2 := by
  simp [massOf, add, List.range_succ, mul_add]
  ring

theorem massOf_empty : massOf empty_distr = 0 := by
  simp [massOf, empty_distr, List.range_succ]

end RD

namespace RD

/-- Every transient decrement in the solver is paired with a restoring
increment: whichever entry point succeeds hands back exactly the shoe it was
given. -/
theorem conserve (n : ℕ) :
    (∀ cfg s pt pa dt r, distr_hit n cfg s pt pa dt = some r → r.2 = s) ∧
    (∀ cfg s pt pa dt cards acc r, hitLoop n cfg s pt pa dt cards acc = some r → r.2 = s) ∧
    (∀ cfg s pt da dt fc r, distr_stand n cfg s pt da dt fc = some r → r.2 = s) ∧
    (∀ cfg s pt da dt b cards acc r,
      standLoop n cfg s pt da dt b cards acc = some r → r.2 = s) ∧
    (∀ cfg s pt pa dt r, distr_double n cfg s pt pa dt = some r → r.2 = s) ∧
    (∀ cfg s pt pa dt cards acc r,
      doubleLoop n cfg s pt pa dt cards acc = some r → r.2 = s) ∧
    (∀ cfg s pc dt r, distr_split_general n cfg s pc dt = some r → r.2 = s) ∧
    (∀ cfg s pc dt cards acc r, sgLoop n cfg s pc dt cards acc = some r → r.2 = s) ∧
    (∀ cfg s dt r, distr_split_tens n cfg s dt = some r → r.2 = s) ∧
    (∀ cfg s dt cards acc r, stLoop n cfg s dt cards acc = some r → r.2 = s) ∧
    (∀ cfg s dt r, distr_split_aces n cfg s dt = some r → r.2 = s) ∧
    (∀ cfg s dt cards acc r, saLoopLow n cfg s dt cards acc = some r → r.2 = s) ∧
    (∀ cfg s dt cards acc r, saLoopHigh n cfg s dt cards acc = some r → r.2 = s) ∧
    (∀ cfg s pt pa dt r, distr_split n cfg s pt pa dt = some r → r.2 = s) ∧
    (∀ cfg s pt pa dt r, distr_hit_stand n cfg s pt pa dt = some r → r.2 = s) ∧
    (∀ cfg s pt pa dt r, distr_hit_stand_double n cfg s pt pa dt = some r → r.2 = s) := by
  induction n with
  | zero =>
    refine ⟨?_, ?_, ?_, ?_, ?_, ?_, ?_, ?_, ?_, ?_, ?_, ?_, ?_, ?_, ?_, ?_⟩ <;>
      intros <;> simp_all [distr_hit, hitLoop, distr_stand, standLoop, distr_double,
        doubleLoop, distr_split_general, sgLoop, distr_split_tens, stLoop,
        distr_split_aces, saLoopLow, saLoopHigh, distr_split, distr_hit_stand,
        distr_hit_stand_double]
  | succ n ih =>
    obtain ⟨ihH, ihHL, ihS, ihSL, ihD, ihDL, ihG, ihGL, ihT, ihTL, ihA, ihAL, ihAH,
      ihSP, ihHS, ihHSD⟩ := ih
    refine ⟨?_, ?_, ?_, ?_, ?_, ?_, ?_, ?_, ?_, ?_, ?_, ?_, ?_, ?_, ?_, ?_⟩
    · -- distr_hit
      intro cfg s pt pa dt r h
      rw [distr_hit] at h
      split_ifs at h with h1 h2
      · exact ihH _ _ _ _ _ _ h
      · cases h; rfl
      · exact ihHL _ _ _ _ _ _ _ _ h
    · -- hitLoop
      intro cfg s pt pa dt cards acc r h
      cases cards with
      | nil => rw [hitLoop] at h; cases h; rfl
      | cons c rest =>
        rw [hitLoop] at h
        split at h
        · split at h
          · simp at h
          · rename_i d s1 hsub
            have h2 := ihHL _ _ _ _ _ _ _ _ h
            have h3 : s1 = decS s c := ihHS _ _ _ _ _ _ hsub
            rw [h2, h3, incS_decS]
        · exact ihHL _ _ _ _ _ _ _ _ h
    · -- distr_stand
      intro cfg s pt da dt fc r h
      rw [distr_stand] at h
      split_ifs at h <;> first
        | (cases h; rfl)
        | exact ihS _ _ _ _ _ _ _ h
        | exact ihSL _ _ _ _ _ _ _ _ _ h
    · -- standLoop
      intro cfg s pt da dt b cards acc r h
      cases cards with
      | nil => rw [standLoop] at h; cases h; rfl
      | cons c rest =>
        rw [standLoop] at h
        split at h
        · split at h
          · simp at h
          · rename_i d s1 hsub
            have h2 := ihSL _ _ _ _ _ _ _ _ _ h
            have h3 : s1 = decS s c := ihS _ _ _ _ _ _ _ hsub
            rw [h2, h3, incS_decS]
        · exact ihSL _ _ _ _ _ _ _ _ _ h
    · -- distr_double
      intro cfg s pt pa dt r h
      rw [distr_double] at h
      split at h
      · simp at h
      · rename_i d s1 hsub
        cases h
        have h4 : s1 = s := ihDL _ _ _ _ _ _ _ _ hsub
        exact h4
    · -- doubleLoop
      intro cfg s pt pa dt cards acc r h
      cases cards with
      | nil => rw [doubleLoop] at h; cases h; rfl
      | cons c rest =>
        rw [doubleLoop] at h
        split at h
        · split at h
          · simp at h
          · rename_i d s1 hsub
            have h2 := ihDL _ _ _ _ _ _ _ _ h
            have h3 : s1 = decS s c := ihS _ _ _ _ _ _ _ hsub
            rw [h2, h3, incS_decS]
        · exact ihDL _ _ _ _ _ _ _ _ h
    · -- distr_split_general
      intro cfg s pc dt r h
      rw [distr_split_general] at h
      split at h
      · simp at h
      · rename_i d s1 hsub
        cases h
        have h4 : s1 = s := ihGL _ _ _ _ _ _ _ hsub
        exact h4
    · -- sgLoop
      intro cfg s pc dt cards acc r h
      cases cards with
      | nil => rw [sgLoop] at h; cases h; rfl
      | cons c rest =>
        rw [sgLoop] at h
        split at h
        · split at h
          · simp at h
          · rename_i d s1 hsub
            have h2 := ihGL _ _ _ _ _ _ _ h
            have h3 : s1 = decS s c := by
              split_ifs at hsub
              · exact ihHSD _ _ _ _ _ _ hsub
              · exact ihHS _ _ _ _ _ _ hsub
            rw [h2, h3, incS_decS]
        · exact ihGL _ _ _ _ _ _ _ h
    · -- distr_split_tens
      intro cfg s dt r h
      rw [distr_split_tens] at h
      split at h
      · simp at h
      · rename_i d s1 hsub
        cases h
        have h4 : s1 = s := ihTL _ _ _ _ _ _ hsub
        exact h4
    · -- stLoop
      intro cfg s dt cards acc r h
      cases cards with
      | nil => rw [stLoop] at h; cases h; rfl
      | cons c rest =>
        rw [stLoop] at h
        split at h
        · split at h
          · simp at h
          · rename_i d s1 hsub
            have h2 := ihTL _ _ _ _ _ _ h
            have h3 : s1 = decS s c := by
              split_ifs at hsub
              · exact ihHSD _ _ _ _ _ _ hsub
              · exact ihHS _ _ _ _ _ _ hsub
            rw [h2, h3, incS_decS]
        · exact ihTL _ _ _ _ _ _ h
    · -- distr_split_aces
      intro cfg s dt r h
      rw [distr_split_aces] at h
      split at h
      · simp at h
      · rename_i d1 s1 hsub
        split at h
        · simp at h
        · rename_i d2 s2 hsub2
          cases h
          have h1 : s1 = s := ihAL _ _ _ _ _ _ hsub
          have h2 : s2 = s1 := ihAH _ _ _ _ _ _ hsub2
          exact h2.trans h1
    · -- saLoopLow
      intro cfg s dt cards acc r h
      cases cards with
      | nil => rw [saLoopLow] at h; cases h; rfl
      | cons c rest =>
        rw [saLoopLow] at h
        split at h
        · split at h
          · simp at h
          · rename_i d s1 hsub
            have h2 := ihAL _ _ _ _ _ _ h
            have h3 : s1 = decS s c := by
              split_ifs at hsub
              · exact ihHSD _ _ _ _ _ _ hsub
              · exact ihHS _ _ _ _ _ _ hsub
              · exact ihS _ _ _ _ _ _ _ hsub
            rw [h2, h3, incS_decS]
        · exact ihAL _ _ _ _ _ _ h
    · -- saLoopHigh
      intro cfg s dt cards acc r h
      cases cards with
      | nil => rw [saLoopHigh] at h; cases h; rfl
      | cons c rest =>
        rw [saLoopHigh] at h
        split at h
        · split at h
          · exact ihAH _ _ _ _ _ _ h
          · split at h
            · simp at h
            · rename_i d s1 hsub
              have h2 := ihAH _ _ _ _ _ _ h
              have h3 : s1 = decS s c := ihS _ _ _ _ _ _ _ hsub
              rw [h2, h3, incS_decS]
        · exact ihAH _ _ _ _ _ _ h
    · -- distr_split
      intro cfg s pt pa dt r h
      rw [distr_split] at h
      split_ifs at h
      · exact ihA _ _ _ _ h
      · exact ihT _ _ _ _ h
      · exact ihG _ _ _ _ _ h
    · -- distr_hit_stand
      intro cfg s pt pa dt r h
      rw [distr_hit_stand] at h
      split at h
      · simp at h
      · rename_i dh s1 hsub
        split at h
        · simp at h
        · rename_i ds s2 hsub2
          cases h
          have h1 : s1 = s := ihH _ _ _ _ _ _ hsub
          have h2 : s2 = s1 := ihS _ _ _ _ _ _ _ hsub2
          exact h2.trans h1
    · -- distr_hit_stand_double
      intro cfg s pt pa dt r h
      rw [distr_hit_stand_double] at h
      generalize (if 21 < pt ∧ 0 < pa then pt - 10 else pt) = ptn at h
      generalize (if 21 < pt ∧ 0 < pa then pa - 1 else pa) = pan at h
      split at h
      · cases h
        by_cases hd : dt < 10 <;> simp [distr_blackjack, hd]
      · split at h
        · simp at h
        · rename_i dhs s1 hsub
          split at h
          · simp at h
          · rename_i dd s2 hsub2
            cases h
            have h1 : s1 = s := ihHS _ _ _ _ _ _ hsub
            have h2 : s2 = s1 := ihD _ _ _ _ _ _ hsub2
            exact h2.trans h1

end RD

namespace KB

/-- `get_probability` computes the sequential draw probability and restores
the two decrements it performed on the caller's array. -/
theorem get_probability_eq (d : Shoe) (c1 c2 c3 : ℕ) :
    get_probability d c1 c2 c3 = (sequential_probability d c1 c2 c3, d) := by
  rw [get_probability, sequential_probability]
  split_ifs with h
  · rfl
  · refine Prod.ext rfl ?_
    show RD.incS (RD.incS (RD.decS (RD.decS d c1) c2) c1) c2 = d
    funext i
    simp only [RD.incS, RD.decS]
    split_ifs <;> omega
end KB

namespace RD

theorem conserve_hit {n cfg s pt pa dt r} (h : distr_hit n cfg s pt pa dt = some r) :
    r.2 = s := (conserve n).1 _ _ _ _ _ _ h

theorem conserve_stand {n cfg s pt da dt fc r}
    (h : distr_stand n cfg s pt da dt fc = some r) : r.2 = s :=
  (conserve n).2.2.1 _ _ _ _ _ _ _ h

theorem conserve_double {n cfg s pt pa dt r} (h : distr_double n cfg s pt pa dt = some r) :
    r.2 = s := (conserve n).2.2.2.2.1 _ _ _ _ _ _ h

theorem conserve_split_general {n cfg s pc dt r}
    (h : distr_split_general n cfg s pc dt = some r) : r.2 = s :=
  (conserve n).2.2.2.2.2.2.1 _ _ _ _ _ h

theorem conserve_split_tens {n cfg s dt r} (h : distr_split_tens n cfg s dt = some r) :
    r.2 = s := (conserve n).2.2.2.2.2.2.2.2.1 _ _ _ _ h

theorem conserve_split_aces {n cfg s dt r} (h : distr_split_aces n cfg s dt = some r) :
    r.2 = s := (conserve n).2.2.2.2.2.2.2.2.2.2.1 _ _ _ _ h

theorem conserve_split {n cfg s pt pa dt r} (h : distr_split n cfg s pt pa dt = some r) :
    r.2 = s := (conserve n).2.2.2.2.2.2.2.2.2.2.2.2.2.1 _ _ _ _ _ _ h

theorem conserve_hit_stand {n cfg s pt pa dt r}
    (h : distr_hit_stand n cfg s pt pa dt = some r) : r.2 = s :=
  (conserve n).2.2.2.2.2.2.2.2.2.2.2.2.2.2.1 _ _ _ _ _ _ h

theorem conserve_hit_stand_double {n cfg s pt pa dt r}
    (h : distr_hit_stand_double n cfg s pt pa dt = some r) : r.2 = s :=
  (conserve n).2.2.2.2.2.2.2.2.2.2.2.2.2.2.2 _ _ _ _ _ _ h

theorem get_value_cases (c : ℕ) :
    get_value c < 10 ∨ get_value c = 10 ∨ get_value c = 11 := by
  unfold get_value; split_ifs <;> omega

end RD

namespace KB

/-- The dealer-blackjack correction computed in `get_distr` agrees with the
specification formulas, taken over the same (full) shoe. -/
theorem q_eq (cd : Shoe) (c3 : ℕ) :
    (if RD.get_value c3 < 10 then (0 : ℚ)
      else get_dealer_blackjack_probability cd (RD.get_value c3)) =
      dealer_blackjack_q cd c3 := by
  rw [dealer_blackjack_q, get_dealer_blackjack_probability]
  rcases RD.get_value_cases c3 with h | h | h
  · simp [h, Nat.lt_irrefl]
  · simp [h]
  · simp [h]

/-- `betLoop` (the threaded translation of the `get_distr` body) refines the
pure specification-side fold: it computes the same distribution and hands the
caller's shoe back unchanged. -/
theorem betLoop_spec (n : ℕ) (R : RD.Rules) (cd : Shoe) (ts : List (ℕ × ℕ × ℕ))
    (acc : Distr) :
    betLoop n R ts cd acc = (betLoopSpec n R cd ts acc).map (fun D => (D, cd)) := by
  induction ts generalizing acc with
  | nil => simp [betLoop, betLoopSpec]
  | cons t rest ih =>
    obtain ⟨c1, c2, c3⟩ := t
    rw [betLoop, betLoopSpec]
    simp only [get_probability_eq]
    by_cases hp : sequential_probability cd c1 c2 c3 = 0
    · simp only [if_pos hp]
      exact ih acc
    · simp only [if_neg hp]
      cases hd : RD.distr_hit_stand_double n (kb_cfg R) (remove_cards cd c1 c2 c3)
          (get_player c1 c2).1 (get_player c1 c2).2 (RD.get_value c3) with
      | none => simp
      | some val =>
        obtain ⟨d, s1⟩ := val
        have hs1 : s1 = remove_cards cd c1 c2 c3 := RD.conserve_hit_stand_double hd
        subst hs1
        by_cases hm : matching_cards R c1 c2
        · simp only [if_pos hm]
          cases hsp : RD.distr_split n (kb_cfg R) (remove_cards cd c1 c2 c3)
              (get_player c1 c2).1 (get_player c1 c2).2 (RD.get_value c3) with
          | none => simp
          | some val2 =>
            obtain ⟨dsp, s2⟩ := val2
            simp only [q_eq]
            exact ih _
        · simp only [if_neg hm, q_eq]
          exact ih _

end KB

namespace RD

theorem double_distr_apply (d : Distr) (i : ℕ) (h4 : 4 ≤ i) (h12 : i ≤ 12) :
    double_distr d (2 * i - 8) = d i := by
  interval_cases i <;>
    simp [double_distr, List.range', Function.update]

theorem double_distr_not_hit (d : Distr) (k : ℕ)
    (h : ∀ i, 4 ≤ i → i ≤ 12 → 2 * i - 8 ≠ k) : double_distr d k = 0 := by
  have h4 := h 4 (by norm_num) (by norm_num)
  have h5 := h 5 (by norm_num) (by norm_num)
  have h6 := h 6 (by norm_num) (by norm_num)
  have h7 := h 7 (by norm_num) (by norm_num)
  have h8 := h 8 (by norm_num) (by norm_num)
  have h9 := h 9 (by norm_num) (by norm_num)
  have h10 := h 10 (by norm_num) (by norm_num)
  have h11 := h 11 (by norm_num) (by norm_num)
  have h12 := h 12 (by norm_num) (by norm_num)
  simp only [double_distr, List.range', List.foldl_cons, List.foldl_nil,
    Function.update_apply]
  split_ifs <;> first | rfl | (exfalso; omega)

theorem dv_inner (d : Distr) (i : ℕ) (J : List ℕ) (t : Distr) (k : ℕ) :
    (J.foldl
      (fun tmp2 j =>
        if i + j < 25 ∧ 8 ≤ i + j then
          Function.update tmp2 (i + j - 8) (tmp2 (i + j - 8) + d i * d j)
        else tmp2)
      t) k =
      t k +
        (J.map fun j =>
          if i + j < 25 ∧ 8 ≤ i + j ∧ i + j - 8 = k then d i * d j else 0).sum := by
  induction J generalizing t with
  | nil => simp
  | cons j J ihJ =>
    simp only [List.foldl_cons, List.map_cons, List.sum_cons]
    by_cases hc : i + j < 25 ∧ 8 ≤ i + j
    · rw [if_pos hc, ihJ]
      by_cases hk : i + j - 8 = k
      · rw [if_pos ⟨hc.1, hc.2, hk⟩, Function.update_apply, if_pos hk.symm, hk]
        ring
      · rw [if_neg (by tauto), Function.update_apply,
          if_neg (fun hkk => hk hkk.symm)]
        ring
    · rw [if_neg hc, ihJ, if_neg (by tauto)]
      ring

theorem dv_outer (d : Distr) (I : List ℕ) (t : Distr) (k : ℕ) :
    (I.foldl
      (fun tmp i =>
        (List.range 17).foldl
          (fun tmp2 j =>
            if i + j < 25 ∧ 8 ≤ i + j then
              Function.update tmp2 (i + j - 8) (tmp2 (i + j - 8) + d i * d j)
            else tmp2)
          tmp)
      t) k =
      t k +
        (I.map fun i =>
          ((List.range 17).map fun j =>
            if i + j < 25 ∧ 8 ≤ i + j ∧ i + j - 8 = k then d i * d j else 0).sum).sum := by
  induction I generalizing t with
  | nil => simp
  | cons i I ihI =>
    simp only [List.foldl_cons, List.map_cons, List.sum_cons]
    rw [ihI, dv_inner]
    ring

/-- Pointwise value of `double_variable`: cell `k` collects `d i * d j` over
every pair whose clamped target is `k`. -/
theorem double_variable_apply (d : Distr) (k : ℕ) :
    double_variable d k =
      ((List.range 17).map fun i =>
        ((List.range 17).map fun j =>
          if i + j < 25 ∧ 8 ≤ i + j ∧ i + j - 8 = k then d i * d j else 0).sum).sum := by
  rw [double_variable, dv_outer]
  simp

end RD

namespace RD

theorem pack100_nil : pack100 [] = 0 := rfl

theorem pack100_cons (x : ℤ) (l : List ℤ) : pack100 (x :: l) = x + 100 * pack100 l := rfl

theorem pack100_nonneg : ∀ l : List ℤ, (∀ x ∈ l, 0 ≤ x) → 0 ≤ pack100 l
  | [], _ => le_refl 0
  | x :: t, h => by
    have h1 := h x (List.mem_cons_self x t)
    have h2 := pack100_nonneg t fun y hy => h y (List.mem_cons_of_mem _ hy)
    simp only [pack100]
    omega

theorem pack100_inj : ∀ l1 l2 : List ℤ, l1.length = l2.length →
    (∀ x ∈ l1, 0 ≤ x) → (∀ x ∈ l2, 0 ≤ x) →
    (∀ x ∈ l1.dropLast, x < 100) → (∀ x ∈ l2.dropLast, x < 100) →
    pack100 l1 = pack100 l2 → l1 = l2
  | [], [], _, _, _, _, _, _ => rfl
  | [], _ :: _, hlen, _, _, _, _, _ => by simp at hlen
  | _ :: _, [], hlen, _, _, _, _, _ => by simp at hlen
  | [x], [y], _, _, _, _, _, heq => by
    rw [pack100_cons, pack100_cons, pack100_nil] at heq
    have hxy : x = y := by omega
    rw [hxy]
  | [_], _ :: _ :: _, hlen, _, _, _, _, _ => by simp at hlen
  | _ :: _ :: _, [_], hlen, _, _, _, _, _ => by simp at hlen
  | x :: a :: t1, y :: b :: t2, hlen, hn1, hn2, hb1, hb2, heq => by
    have hx0 : 0 ≤ x := hn1 x (by simp)
    have hy0 : 0 ≤ y := hn2 y (by simp)
    have hx1 : x < 100 := hb1 x (by simp)
    have hy1 : y < 100 := hb2 y (by simp)
    have p1 : 0 ≤ pack100 (a :: t1) :=
      pack100_nonneg _ fun z hz => hn1 z (List.mem_cons_of_mem _ hz)
    have p2 : 0 ≤ pack100 (b :: t2) :=
      pack100_nonneg _ fun z hz => hn2 z (List.mem_cons_of_mem _ hz)
    rw [pack100_cons x, pack100_cons y] at heq
    have hxy : x = y ∧ pack100 (a :: t1) = pack100 (b :: t2) := by constructor <;> omega
    have htail : a :: t1 = b :: t2 :=
      pack100_inj (a :: t1) (b :: t2) (by simpa using hlen)
        (fun z hz => hn1 z (List.mem_cons_of_mem _ hz))
        (fun z hz => hn2 z (List.mem_cons_of_mem _ hz))
        (fun z hz => hb1 z (by rw [List.dropLast_cons₂]; exact List.mem_cons_of_mem _ hz))
        (fun z hz => hb2 z (by rw [List.dropLast_cons₂]; exact List.mem_cons_of_mem _ hz))
        hxy.2
    rw [hxy.1, htail]

/-- Closed form of the hashing loop: mode in the decimal units digit, then the
thirteen counts, the player total, the dealer total and the ace count in
successive two-decimal-digit positions. -/
theorem get_state_hash_eq (s : Shoe) (pt a dt m : ℕ) :
    get_state_hash s pt a dt m =
      (m : ℤ) + 10 * pack100 [s 1, s 2, s 3, s 4, s 5, s 6, s 7, s 8, s 9, s 10, s 11,
        s 12, s 13, (pt : ℤ), (dt : ℤ), (a : ℤ)] := by
  simp only [get_state_hash, cards13, List.range', List.foldl_cons, List.foldl_nil,
    pack100]
  ring

end RD

namespace RD

theorem sumOver_nil (f : ℕ → ℚ) : sumOver [] f = 0 := rfl

theorem sumOver_cons (c : ℕ) (l : List ℕ) (f : ℕ → ℚ) :
    sumOver (c :: l) f = f c + sumOver l f := by simp [sumOver]

theorem massOf_lose : massOf CONSTANT_LOSE = 1 := by
  norm_num [massOf, CONSTANT_LOSE, constant_distr, List.range_succ]

theorem massOf_win : massOf CONSTANT_WIN = 1 := by
  norm_num [massOf, CONSTANT_WIN, constant_distr, List.range_succ]

theorem massOf_tie : massOf CONSTANT_TIE = 1 := by
  norm_num [massOf, CONSTANT_TIE, constant_distr, List.range_succ]

theorem massOf_blackjack : massOf CONSTANT_BLACKJACK = 1 := by
  norm_num [massOf, CONSTANT_BLACKJACK, constant_distr, List.range_succ]

theorem hardval (c : ℕ) (hc : c ∈ cards13) :
    2 ≤ get_value c ∧ get_value c ≤ 11 ∧ 10 * is_ace (get_value c) ≤ get_value c ∧
      1 ≤ (get_value c : ℤ) - 10 * (is_ace (get_value c) : ℤ) := by
  have hc' : 1 ≤ c ∧ c < 14 := by
    simpa [cards13] using List.mem_range'_1.1 hc
  obtain ⟨h1, h2⟩ := hc'
  interval_cases c <;> decide

/-- Over a shoe whose every rank is stocked, the banned-value filtered total
is positive for the three banned values the solver uses. -/
theorem sumOver_banned_pos (s : Shoe) (b : ℕ) (hb : b = 0 ∨ b = 10 ∨ b = 11)
    (h : ∀ c ∈ cards13, (1 : ℤ) ≤ s c) :
    0 < sumOver cards13 (fun i => if b = get_value i then 0 else (s i : ℚ)) := by
  have h2 : (2 : ℕ) ∈ cards13 := by decide
  have hne : ¬b = get_value 2 := by rcases hb with rfl | rfl | rfl <;> decide
  have hpos : (0 : ℚ) < (if b = get_value 2 then 0 else (s 2 : ℚ)) := by
    rw [if_neg hne]
    exact_mod_cast lt_of_lt_of_le zero_lt_one (h 2 h2)
  have hnonneg :
      ∀ x ∈ cards13.map fun i => if b = get_value i then (0 : ℚ) else (s i : ℚ), 0 ≤ x := by
    intro x hx
    obtain ⟨i, hi, rfl⟩ := List.mem_map.1 hx
    split_ifs with hif
    · exact le_refl 0
    · exact_mod_cast le_trans zero_le_one (h i hi)
  have hsum : (if b = get_value 2 then (0 : ℚ) else (s 2 : ℚ)) ≤
      sumOver cards13 (fun i => if b = get_value i then 0 else (s i : ℚ)) := by
    unfold sumOver
    exact List.single_le_sum hnonneg _ (List.mem_map_of_mem _ h2)
  exact lt_of_lt_of_le hpos hsum

theorem cp_sum (s : Shoe) (b : ℕ)
    (h : sumOver cards13 (fun i => if b = get_value i then 0 else (s i : ℚ)) ≠ 0) :
    sumOver cards13 (fun c => card_probability s c b) = 1 := by
  unfold card_probability
  set T := sumOver cards13 (fun i => if b = get_value i then 0 else (s i : ℚ)) with hT
  have expand :
      sumOver cards13 (fun c => (if b = get_value c then (0 : ℚ) else (s c : ℚ)) / T) =
        T / T := by
    rw [hT]
    simp only [sumOver, cards13, List.range', List.map_cons, List.map_nil, List.sum_cons,
      List.sum_nil]
    ring
  rw [expand, div_self h]

/-- `distr_stand` on a busted player is the constant LOSE distribution,
regardless of the dealer's state, the shoe or the peek flag. -/
theorem stand_bust {n : ℕ} {cfg : Cfg} {s : Shoe} {pt da dt : ℕ} {fc : Bool}
    (hpt : 21 < pt) :
    distr_stand (n + 1) cfg s pt da dt fc = some (CONSTANT_LOSE, s) := by
  rw [distr_stand, if_pos hpt]

end RD

namespace RD

/-- On a sufficiently stocked shoe, the draw distributions are genuine
probability distributions: the 17 cells of every successful `distr_hit`,
`distr_stand` and `distr_hit_stand` result sum to exactly 1.  The stocking
condition asks every rank count to cover the remaining hard-total deficit of
the drawing hand. -/
theorem mass_one (n : ℕ) :
    (∀ (cfg : Cfg) (s : Shoe) (pt pa dt : ℕ) d s2,
      (∀ c ∈ cards13, (39 : ℤ) ≤ s c + ((pt : ℤ) - 10 * (pa : ℤ))) → 10 * pa ≤ pt →
      distr_hit n cfg s pt pa dt = some (d, s2) → massOf d = 1) ∧
    (∀ (cfg : Cfg) (s : Shoe) (pt pa dt : ℕ) (cards : List ℕ) (acc : Distr) d s2,
      (∀ c ∈ cards13, (39 : ℤ) ≤ s c + ((pt : ℤ) - 10 * (pa : ℤ))) → 10 * pa ≤ pt →
      pt ≤ 21 → (∀ c ∈ cards, c ∈ cards13) →
      hitLoop n cfg s pt pa dt cards acc = some (d, s2) →
      massOf d = massOf acc + sumOver cards (fun c => card_probability s c 0)) ∧
    (∀ (cfg : Cfg) (s : Shoe) (pt da dt : ℕ) (fc : Bool) d s2,
      (∀ c ∈ cards13, (18 : ℤ) ≤ s c + ((dt : ℤ) - 10 * (da : ℤ))) → 10 * da ≤ dt →
      distr_stand n cfg s pt da dt fc = some (d, s2) → massOf d = 1) ∧
    (∀ (cfg : Cfg) (s : Shoe) (pt da dt b : ℕ) (cards : List ℕ) (acc : Distr) d s2,
      (∀ c ∈ cards13, (18 : ℤ) ≤ s c + ((dt : ℤ) - 10 * (da : ℤ))) → 10 * da ≤ dt →
      dt ≤ 17 → (b = 0 ∨ b = 10 ∨ b = 11) → (∀ c ∈ cards, c ∈ cards13) →
      standLoop n cfg s pt da dt b cards acc = some (d, s2) →
      massOf d = massOf acc + sumOver cards (fun c => card_probability s c b)) ∧
    (∀ (cfg : Cfg) (s : Shoe) (pt pa dt : ℕ) d s2,
      (∀ c ∈ cards13, (39 : ℤ) ≤ s c + ((pt : ℤ) - 10 * (pa : ℤ))) → 10 * pa ≤ pt →
      distr_hit_stand n cfg s pt pa dt = some (d, s2) → massOf d = 1) := by
  induction n with
  | zero =>
    refine ⟨?_, ?_, ?_, ?_, ?_⟩ <;> intros <;>
      simp_all [distr_hit, hitLoop, distr_stand, standLoop, distr_hit_stand]
  | succ n ih =>
    obtain ⟨ihH, ihHL, ihS, ihSL, ihHS⟩ := ih
    refine ⟨?_, ?_, ?_, ?_, ?_⟩
    · -- distr_hit
      intro cfg s pt pa dt d s2 hmin hpa h
      rw [distr_hit] at h
      split_ifs at h with h1 h2
      · refine ihH _ _ _ _ _ _ _ ?_ ?_ h
        · intro c hc; have := hmin c hc; omega
        · omega
      · cases h; exact massOf_lose
      · have hT : 0 < sumOver cards13 fun i =>
            if 0 = get_value i then 0 else (s i : ℚ) := by
          refine sumOver_banned_pos s 0 (Or.inl rfl) ?_
          intro c hc; have := hmin c hc; omega
        have hloop := ihHL _ _ _ _ _ _ _ _ _ hmin hpa (by omega) (fun c hc => hc) h
        rw [hloop, massOf_empty, zero_add, cp_sum s 0 (ne_of_gt hT)]
    · -- hitLoop
      intro cfg s pt pa dt cards acc d s2 hmin hpa hpt hsubset h
      cases cards with
      | nil => rw [hitLoop] at h; cases h; simp [sumOver_nil]
      | cons c rest =>
        have hc13 : c ∈ cards13 := hsubset c (List.mem_cons_self c rest)
        have hv := hardval c hc13
        have hcount : (18 : ℤ) ≤ s c := by have := hmin c hc13; omega
        have hT : 0 < sumOver cards13 fun i =>
            if 0 = get_value i then 0 else (s i : ℚ) := by
          refine sumOver_banned_pos s 0 (Or.inl rfl) ?_
          intro c' hc'; have := hmin c' hc'; omega
        have hp : 0 < card_probability s c 0 := by
          rw [card_probability]
          refine div_pos ?_ hT
          rw [if_neg (by omega)]
          exact_mod_cast lt_of_lt_of_le (by norm_num) hcount
        rw [hitLoop, if_pos hp] at h
        split at h
        · simp at h
        · rename_i dsub s1 hsubcall
          have hs1 : s1 = decS s c := conserve_hit_stand hsubcall
          have hmass1 : massOf dsub = 1 := by
            refine ihHS _ _ _ _ _ _ _ ?_ ?_ hsubcall
            · intro c' hc'
              have h1 := hmin c' hc'
              simp only [decS]
              split_ifs <;> omega
            · omega
          rw [hs1, incS_decS] at h
          have hrec := ihHL _ _ _ _ _ _ _ _ _ hmin hpa hpt
            (fun c' hc' => hsubset c' (List.mem_cons_of_mem _ hc')) h
          rw [hrec, massOf_add, hmass1, mul_one, sumOver_cons]
          ring
    · -- distr_stand
      intro cfg s pt da dt fc d s2 hmin hda h
      rw [distr_stand] at h
      split_ifs at h with h1 h2 h3 h4 h5 h6
      · cases h; exact massOf_lose
      · refine ihS _ _ _ _ _ _ _ _ ?_ ?_ h
        · intro c hc; have := hmin c hc; omega
        · omega
      · cases h; exact massOf_win
      · cases h; exact massOf_tie
      · cases h; exact massOf_lose
      · cases h; exact massOf_win
      · have hdt17 : dt ≤ 17 := by omega
        have hb : stand_banned dt fc = 0 ∨ stand_banned dt fc = 10 ∨
            stand_banned dt fc = 11 := by
          unfold stand_banned; split_ifs <;> simp
        have hT : 0 < sumOver cards13 fun i =>
            if stand_banned dt fc = get_value i then 0 else (s i : ℚ) := by
          refine sumOver_banned_pos s _ hb ?_
          intro c hc; have := hmin c hc; omega
        have hloop := ihSL _ _ _ _ _ _ _ _ _ _ hmin hda hdt17 hb (fun c hc => hc) h
        rw [hloop, massOf_empty, zero_add, cp_sum s _ (ne_of_gt hT)]
    · -- standLoop
      intro cfg s pt da dt b cards acc d s2 hmin hda hdt hb hsubset h
      cases cards with
      | nil => rw [standLoop] at h; cases h; simp [sumOver_nil]
      | cons c rest =>
        have hc13 : c ∈ cards13 := hsubset c (List.mem_cons_self c rest)
        have hv := hardval c hc13
        rw [standLoop] at h
        by_cases hp : 0 < card_probability s c b
        · rw [if_pos hp] at h
          split at h
          · simp at h
          · rename_i dsub s1 hsubcall
            have hs1 : s1 = decS s c := conserve_stand hsubcall
            have hmass1 : massOf dsub = 1 := by
              refine ihS _ _ _ _ _ _ _ _ ?_ ?_ hsubcall
              · intro c' hc'
                have h1 := hmin c' hc'
                simp only [decS]
                split_ifs <;> omega
              · omega
            rw [hs1, incS_decS] at h
            have hrec := ihSL _ _ _ _ _ _ _ _ _ _ hmin hda hdt hb
              (fun c' hc' => hsubset c' (List.mem_cons_of_mem _ hc')) h
            rw [hrec, massOf_add, hmass1, mul_one, sumOver_cons]
            ring
        · rw [if_neg hp] at h
          have hrec := ihSL _ _ _ _ _ _ _ _ _ _ hmin hda hdt hb
            (fun c' hc' => hsubset c' (List.mem_cons_of_mem _ hc')) h
          have hT : 0 < sumOver cards13 fun i =>
              if b = get_value i then 0 else (s i : ℚ) := by
            refine sumOver_banned_pos s b hb ?_
            intro c' hc'; have := hmin c' hc'; omega
          have hp0 : card_probability s c b = 0 := by
            refine le_antisymm (not_lt.1 hp) ?_
            rw [card_probability]
            refine div_nonneg ?_ (le_of_lt hT)
            split_ifs
            · exact le_refl 0
            · have := hmin c hc13
              have hcc : (0 : ℤ) ≤ s c := by omega
              exact_mod_cast hcc
          rw [hrec, sumOver_cons, hp0]
          ring
    · -- distr_hit_stand
      intro cfg s pt pa dt d s2 hmin hpa h
      rw [distr_hit_stand] at h
      have hinvmin : ∀ c ∈ cards13,
          (39 : ℤ) ≤ s c + (((if 21 < pt ∧ 0 < pa then pt - 10 else pt : ℕ) : ℤ) -
            10 * ((if 21 < pt ∧ 0 < pa then pa - 1 else pa : ℕ) : ℤ)) := by
        intro c hc
        have := hmin c hc
        split_ifs <;> omega
      have hinvpa : 10 * (if 21 < pt ∧ 0 < pa then pa - 1 else pa) ≤
          (if 21 < pt ∧ 0 < pa then pt - 10 else pt) := by
        split_ifs <;> omega
      split at h
      · simp at h
      · rename_i dh s1 hhit
        split at h
        · simp at h
        · rename_i ds s2x hstand
          cases h
          have hmh : massOf dh = 1 := ihH _ _ _ _ _ _ _ hinvmin hinvpa hhit
          have hs1 : s1 = s := conserve_hit hhit
          subst hs1
          have hms : massOf ds = 1 := by
            by_cases hbust : 21 < (if 21 < pt ∧ 0 < pa then pt - 10 else pt)
            · cases n with
              | zero => simp [distr_stand] at hstand
              | succ m =>
                rw [stand_bust hbust] at hstand
                cases hstand
                exact massOf_lose
            · refine ihS _ _ _ _ _ _ _ _ ?_ ?_ hstand
              · intro c hc
                have h1 := hinvmin c hc
                have h2 : dt = 11 ∨ dt ≠ 11 := em _
                unfold is_ace
                rcases h2 with h2 | h2 <;> simp [h2] <;> omega
              · unfold is_ace
                split_ifs with h2
                · omega
                · omega
          split_ifs
          · exact hmh
          · exact hms

end RD

/-- C10: whenever `distr_stand` is called with `player_total > 21`, it
returns the constant LOSE distribution immediately — for every value of
`dealer_aces`, `dealer_total`, `first_call`, shoe contents and rule flags —
an unconditional player-bust check. -/
theorem claim_C10_stand_busted_player :
    ∀ (n : ℕ) (cfg : RD.Cfg) (s : Shoe) (pt da dt : ℕ) (fc : Bool), 21 < pt →
      RD.distr_stand (n + 1) cfg s pt da dt fc = some (RD.CONSTANT_LOSE, s) :=
  fun _ _ _ _ _ _ _ h => RD.stand_bust h

/-- C10 witness at a concrete busted state. -/
theorem claim_C10_stand_busted_player_witness :
    RD.distr_stand 1 RD.cfg0 RD.shoeE 25 3 9 false = some (RD.CONSTANT_LOSE, RD.shoeE) :=
  claim_C10_stand_busted_player 0 RD.cfg0 RD.shoeE 25 3 9 false (by norm_num)

/-- C7: `KellyBettor.get_distr` equals its specification-side formulation:
for every dealt triple with nonzero draw probability, the dealer-blackjack
probability `q` is computed from the full shoe before the three dealt cards
are removed (`q = 0` for a shown value below 10, the ten-count ratio for a
shown ace, the ace-count ratio for a shown ten), and the aggregate
accumulates the chosen distribution scaled by `p·(1−q)` plus `p·q` times TIE
when the player total is 21 and LOSE otherwise; the input shoe comes back
unchanged. -/
theorem claim_C7_get_distr_refines_spec :
    ∀ (n : ℕ) (R : RD.Rules) (cd : Shoe),
      KB.get_distr n R cd = (KB.get_distr_spec n R cd).map (fun D => (D, cd)) :=
  fun n R cd => KB.betLoop_spec n R cd KB.triples RD.empty_distr

/-- C8: `double_variable` replaces a distribution by its self-convolution:
for `k ≤ 16`, the new cell `k` collects `d i · d j` over exactly the pairs
with `i + j = k + 8`, and no mass appears outside the clamped range
`[0,16]`. -/
theorem claim_C8_self_convolve :
    ∀ (d : Distr) (k : ℕ),
      (k ≤ 16 →
        RD.double_variable d k =
          ((List.range 17).map fun i =>
            ((List.range 17).map fun j =>
              if i + j = k + 8 then d i * d j else 0).sum).sum) ∧
      (16 < k → RD.double_variable d k = 0) := by
  intro d k
  constructor
  · intro hk
    rw [RD.double_variable_apply]
    refine congrArg List.sum ?_
    refine List.map_congr_left ?_
    intro i _
    refine congrArg List.sum ?_
    refine List.map_congr_left ?_
    intro j _
    refine if_congr ?_ rfl rfl
    constructor
    · rintro ⟨h1, h2, h3⟩; omega
    · intro h1; omega
  · intro hk
    rw [RD.double_variable_apply]
    refine List.sum_eq_zero ?_
    intro x hx
    obtain ⟨i, _, rfl⟩ := List.mem_map.1 hx
    refine List.sum_eq_zero ?_
    intro y hy
    obtain ⟨j, _, rfl⟩ := List.mem_map.1 hy
    rw [if_neg]
    rintro ⟨h1, h2, h3⟩; omega

/-- C8 witness: the convolution cell 4 of the LOSE distribution. -/
theorem claim_C8_self_convolve_witness :
    RD.double_variable RD.CONSTANT_LOSE 4 =
      ((List.range 17).map fun i =>
        ((List.range 17).map fun j =>
          if i + j = 4 + 8 then RD.CONSTANT_LOSE i * RD.CONSTANT_LOSE j else 0).sum).sum ∧
    RD.double_variable RD.CONSTANT_LOSE 20 = 0 :=
  ⟨(claim_C8_self_convolve RD.CONSTANT_LOSE 4).1 (by norm_num),
    (claim_C8_self_convolve RD.CONSTANT_LOSE 20).2 (by norm_num)⟩

/-- C9: `double_distr` maps a distribution over payout `w` to the
distribution over payout `2w`: for every `i ∈ [4,12]` the new cell `2i−8`
receives exactly the mass of the old cell `i`, and every cell not of that
form is zero. -/
theorem claim_C9_double_payout :
    ∀ d : Distr,
      (∀ i, 4 ≤ i → i ≤ 12 → RD.double_distr d (2 * i - 8) = d i) ∧
      (∀ k, (¬∃ i, 4 ≤ i ∧ i ≤ 12 ∧ 2 * i - 8 = k) → RD.double_distr d k = 0) := by
  intro d
  refine ⟨RD.double_distr_apply d, ?_⟩
  intro k hk
  refine RD.double_distr_not_hit d k ?_
  intro i h4 h12 he
  exact hk ⟨i, h4, h12, he⟩

/-- C9 witness: cell `2·5−8` of the doubled WIN distribution holds the old
cell 5, and cell 3 (odd, hence not of the form `2i−8`) is empty. -/
theorem claim_C9_double_payout_witness :
    RD.double_distr RD.CONSTANT_WIN (2 * 5 - 8) = RD.CONSTANT_WIN 5 ∧
    RD.double_distr RD.CONSTANT_WIN 3 = 0 :=
  ⟨(claim_C9_double_payout RD.CONSTANT_WIN).1 5 (by norm_num) (by norm_num),
    (claim_C9_double_payout RD.CONSTANT_WIN).2 3 (by rintro ⟨i, h4, h12, he⟩; omega)⟩

/-- C3: every public solver entry point, and the bettor's `get_distr`, hands
back the shoe it was given: every transient decrement during recursion is
paired with a restoration before returning. -/
theorem claim_C3_shoe_conservation :
    (∀ (n : ℕ) (cfg : RD.Cfg) (s : Shoe) (pt pa dt : ℕ) d s2,
      RD.distr_hit n cfg s pt pa dt = some (d, s2) → s2 = s) ∧
    (∀ (n : ℕ) (cfg : RD.Cfg) (s : Shoe) (pt da dt : ℕ) (fc : Bool) d s2,
      RD.distr_stand n cfg s pt da dt fc = some (d, s2) → s2 = s) ∧
    (∀ (n : ℕ) (cfg : RD.Cfg) (s : Shoe) (pt pa dt : ℕ) d s2,
      RD.distr_double n cfg s pt pa dt = some (d, s2) → s2 = s) ∧
    (∀ (n : ℕ) (cfg : RD.Cfg) (s : Shoe) (pc dt : ℕ) d s2,
      RD.distr_split_general n cfg s pc dt = some (d, s2) → s2 = s) ∧
    (∀ (n : ℕ) (cfg : RD.Cfg) (s : Shoe) (dt : ℕ) d s2,
      RD.distr_split_tens n cfg s dt = some (d, s2) → s2 = s) ∧
    (∀ (n : ℕ) (cfg : RD.Cfg) (s : Shoe) (dt : ℕ) d s2,
      RD.distr_split_aces n cfg s dt = some (d, s2) → s2 = s) ∧
    (∀ (n : ℕ) (cfg : RD.Cfg) (s : Shoe) (pt pa dt : ℕ) d s2,
      RD.distr_split n cfg s pt pa dt = some (d, s2) → s2 = s) ∧
    (∀ (n : ℕ) (cfg : RD.Cfg) (s : Shoe) (pt pa dt : ℕ) d s2,
      RD.distr_hit_stand n cfg s pt pa dt = some (d, s2) → s2 = s) ∧
    (∀ (n : ℕ) (cfg : RD.Cfg) (s : Shoe) (pt pa dt : ℕ) d s2,
      RD.distr_hit_stand_double n cfg s pt pa dt = some (d, s2) → s2 = s) ∧
    (∀ (cfg : RD.Cfg) (s : Shoe) (dt : ℕ), (RD.distr_blackjack cfg s dt).2 = s) ∧
    (∀ (n : ℕ) (R : RD.Rules) (cd : Shoe) D cd2,
      KB.get_distr n R cd = some (D, cd2) → cd2 = cd) := by
  refine ⟨?_, ?_, ?_, ?_, ?_, ?_, ?_, ?_, ?_, ?_, ?_⟩
  · intro n cfg s pt pa dt d s2 h; exact RD.conserve_hit h
  · intro n cfg s pt da dt fc d s2 h; exact RD.conserve_stand h
  · intro n cfg s pt pa dt d s2 h; exact RD.conserve_double h
  · intro n cfg s pc dt d s2 h; exact RD.conserve_split_general h
  · intro n cfg s dt d s2 h; exact RD.conserve_split_tens h
  · intro n cfg s dt d s2 h; exact RD.conserve_split_aces h
  · intro n cfg s pt pa dt d s2 h; exact RD.conserve_split h
  · intro n cfg s pt pa dt d s2 h; exact RD.conserve_hit_stand h
  · intro n cfg s pt pa dt d s2 h; exact RD.conserve_hit_stand_double h
  · intro cfg s dt
    rw [RD.distr_blackjack]
    split_ifs <;> rfl
  · intro n R cd D cd2 h
    rw [KB.get_distr, KB.betLoop_spec] at h
    cases hs : KB.betLoopSpec n R cd KB.triples RD.empty_distr with
    | none => rw [hs] at h; cases h
    | some D2 => rw [hs] at h; cases h; rfl

/-- C2 (amended): in both two-way choices the returned distribution is the
one with the strictly larger dot product against the utility table, and on a
tie the *second* operand of the comparison is kept — the stand branch in
`distr_hit_stand`, but the *double* branch (not the hit-stand branch) in
`distr_hit_stand_double`. -/
theorem claim_C2_amended_choice_rule :
    (∀ (n : ℕ) (cfg : RD.Cfg) (s : Shoe) (pt pa dt : ℕ) dh s1 ds s2,
      ¬(21 < pt ∧ 0 < pa) →
      RD.distr_hit n cfg s pt pa dt = some (dh, s1) →
      RD.distr_stand n cfg s1 pt (RD.is_ace dt) dt true = some (ds, s2) →
      RD.distr_hit_stand (n + 1) cfg s pt pa dt =
        some
          (if RD.distribution_value cfg dh > RD.distribution_value cfg ds then dh else ds,
            s2) ∧
      (RD.distribution_value cfg dh ≤ RD.distribution_value cfg ds →
        RD.distr_hit_stand (n + 1) cfg s pt pa dt = some (ds, s2))) ∧
    (∀ (n : ℕ) (cfg : RD.Cfg) (s : Shoe) (pt pa dt : ℕ) dhs s1 dd s2,
      ¬(21 < pt ∧ 0 < pa) → pt ≠ 21 →
      RD.distr_hit_stand n cfg s pt pa dt = some (dhs, s1) →
      RD.distr_double n cfg s1 pt pa dt = some (dd, s2) →
      RD.distr_hit_stand_double (n + 1) cfg s pt pa dt =
        some
          (if RD.distribution_value cfg dhs > RD.distribution_value cfg dd then dhs
            else dd, s2) ∧
      (RD.distribution_value cfg dhs ≤ RD.distribution_value cfg dd →
        RD.distr_hit_stand_double (n + 1) cfg s pt pa dt = some (dd, s2))) := by
  constructor
  · intro n cfg s pt pa dt dh s1 ds s2 hnorm hh hs
    constructor
    · rw [RD.distr_hit_stand]
      simp only [if_neg hnorm, hh, hs]
    · intro hle
      rw [RD.distr_hit_stand]
      simp only [if_neg hnorm, hh, hs, if_neg (not_lt.2 hle)]
  · intro n cfg s pt pa dt dhs s1 dd s2 hnorm h21 hh hd
    constructor
    · rw [RD.distr_hit_stand_double]
      simp only [if_neg hnorm, if_neg h21, hh, hd]
    · intro hle
      rw [RD.distr_hit_stand_double]
      simp only [if_neg hnorm, if_neg h21, hh, hd, if_neg (not_lt.2 hle)]

/-- C4 (amended): the 17 cells of every successful `distr_hit` and
`distr_stand` result sum to exactly 1, provided the shoe is sufficiently
stocked: every rank count must cover the drawing hand's remaining hard-total
deficit (`count + (total − 10·aces) ≥ 39` for the player's hit,
`count + (total − 10·aces) ≥ 18` for the dealer's draw).  On depleted shoes
the guarded branches silently contribute nothing and the sum can fall below
1. -/
theorem claim_C4_amended_mass_one :
    (∀ (n : ℕ) (cfg : RD.Cfg) (s : Shoe) (pt pa dt : ℕ) d s2,
      (∀ c ∈ RD.cards13, (39 : ℤ) ≤ s c + ((pt : ℤ) - 10 * (pa : ℤ))) → 10 * pa ≤ pt →
      RD.distr_hit n cfg s pt pa dt = some (d, s2) → RD.massOf d = 1) ∧
    (∀ (n : ℕ) (cfg : RD.Cfg) (s : Shoe) (pt da dt : ℕ) (fc : Bool) d s2,
      (∀ c ∈ RD.cards13, (18 : ℤ) ≤ s c + ((dt : ℤ) - 10 * (da : ℤ))) → 10 * da ≤ dt →
      RD.distr_stand n cfg s pt da dt fc = some (d, s2) → RD.massOf d = 1) := by
  constructor
  · intro n cfg s pt pa dt d s2 hmin hpa h
    exact (RD.mass_one n).1 cfg s pt pa dt d s2 hmin hpa h
  · intro n cfg s pt da dt fc d s2 hmin hda h
    exact (RD.mass_one n).2.2.1 cfg s pt da dt fc d s2 hmin hda h

/-- C5: `card_probability` with `banned_value = 0` is the plain shoe ratio;
with a nonzero banned value it gives zero to every card of the banned value
and renormalizes over the remaining cards; and `distr_stand`'s draw branch
bans value 11 exactly when the dealer shows 10 on the first call, value 10
exactly when the dealer shows 11 on the first call, and nothing otherwise. -/
theorem claim_C5_card_probability :
    (∀ (s : Shoe) (card : ℕ), card ∈ RD.cards13 →
      RD.card_probability s card 0 =
        (s card : ℚ) / RD.sumOver RD.cards13 (fun i => (s i : ℚ))) ∧
    (∀ (s : Shoe) (card b : ℕ), b ≠ 0 → b = RD.get_value card →
      RD.card_probability s card b = 0) ∧
    (∀ (s : Shoe) (card b : ℕ), b ≠ 0 → b ≠ RD.get_value card →
      RD.card_probability s card b =
        (s card : ℚ) /
          RD.sumOver RD.cards13
            (fun i => if RD.get_value i = b then 0 else (s i : ℚ))) ∧
    (∀ (dt : ℕ) (fc : Bool),
      (RD.stand_banned dt fc = 11 ↔ dt = 10 ∧ fc = true) ∧
      (RD.stand_banned dt fc = 10 ↔ dt = 11 ∧ fc = true) ∧
      (¬(dt = 10 ∧ fc = true) → ¬(dt = 11 ∧ fc = true) → RD.stand_banned dt fc = 0)) := by
  refine ⟨?_, ?_, ?_, ?_⟩
  · intro s card hc
    rw [RD.card_probability]
    have hcard := RD.hardval card hc
    rw [if_neg (by omega)]
    refine congrArg (fun T => (s card : ℚ) / T) ?_
    unfold RD.sumOver
    refine congrArg List.sum (List.map_congr_left ?_)
    intro i hi
    have := RD.hardval i hi
    rw [if_neg (by omega)]
  · intro s card b hb0 hbv
    rw [RD.card_probability, if_pos hbv, zero_div]
  · intro s card b hb0 hbv
    rw [RD.card_probability]
    rw [if_neg (fun he => hbv he)]
    refine congrArg (fun T => (s card : ℚ) / T) ?_
    unfold RD.sumOver
    refine congrArg List.sum (List.map_congr_left ?_)
    intro i _
    by_cases he : b = RD.get_value i
    · rw [if_pos he, if_pos he.symm]
    · rw [if_neg he, if_neg (fun h2 => he h2.symm)]
  · intro dt fc
    cases fc <;> unfold RD.stand_banned <;>
      refine ⟨?_, ?_, ?_⟩ <;> first
        | (constructor
           · intro h; split_ifs at h <;> omega
           · rintro ⟨rfl, _⟩; simp)
        | (intro h1 h2; split_ifs <;> simp_all)
        | (constructor
           · intro h; split_ifs at h <;> simp_all
           · rintro ⟨rfl, h⟩; simp_all)

/-- C6: `get_state_hash` is injective on the bounded grid — two states that
differ in any shoe count (each below 100), player total (at most 31), dealer
total (in [2,11]), ace count (at most 31) or mode (in 0..5) hash to
different values, and the hash stays inside the nonnegative `int128`
range. -/
theorem claim_C6_hash_injective :
    ∀ (s1 s2 : Shoe) (pt1 pt2 dt1 dt2 a1 a2 m1 m2 : ℕ),
      (∀ c ∈ RD.cards13, 0 ≤ s1 c ∧ s1 c < 100) →
      (∀ c ∈ RD.cards13, 0 ≤ s2 c ∧ s2 c < 100) →
      m1 ≤ 5 → m2 ≤ 5 → pt1 ≤ 31 → pt2 ≤ 31 →
      2 ≤ dt1 → dt1 ≤ 11 → 2 ≤ dt2 → dt2 ≤ 11 → a1 ≤ 31 → a2 ≤ 31 →
      ((∃ c ∈ RD.cards13, s1 c ≠ s2 c) ∨ pt1 ≠ pt2 ∨ dt1 ≠ dt2 ∨ a1 ≠ a2 ∨ m1 ≠ m2) →
      RD.get_state_hash s1 pt1 a1 dt1 m1 ≠ RD.get_state_hash s2 pt2 a2 dt2 m2 ∧
      0 ≤ RD.get_state_hash s1 pt1 a1 dt1 m1 ∧
      RD.get_state_hash s1 pt1 a1 dt1 m1 < 2 ^ 127 := by
  intro s1 s2 pt1 pt2 dt1 dt2 a1 a2 m1 m2 hb1 hb2 hm1 hm2 hpt1 hpt2 hdt1l hdt1u hdt2l
    hdt2u ha1 ha2 hdiff
  have q1 := hb1 1 (by decide)
  have q2 := hb1 2 (by decide)
  have q3 := hb1 3 (by decide)
  have q4 := hb1 4 (by decide)
  have q5 := hb1 5 (by decide)
  have q6 := hb1 6 (by decide)
  have q7 := hb1 7 (by decide)
  have q8 := hb1 8 (by decide)
  have q9 := hb1 9 (by decide)
  have q10 := hb1 10 (by decide)
  have q11 := hb1 11 (by decide)
  have q12 := hb1 12 (by decide)
  have q13 := hb1 13 (by decide)
  have r1 := hb2 1 (by decide)
  have r2 := hb2 2 (by decide)
  have r3 := hb2 3 (by decide)
  have r4 := hb2 4 (by decide)
  have r5 := hb2 5 (by decide)
  have r6 := hb2 6 (by decide)
  have r7 := hb2 7 (by decide)
  have r8 := hb2 8 (by decide)
  have r9 := hb2 9 (by decide)
  have r10 := hb2 10 (by decide)
  have r11 := hb2 11 (by decide)
  have r12 := hb2 12 (by decide)
  have r13 := hb2 13 (by decide)
  have hn1 : ∀ x ∈ [s1 1, s1 2, s1 3, s1 4, s1 5, s1 6, s1 7, s1 8, s1 9, s1 10, s1 11, s1 12, s1 13, (pt1 : ℤ), (dt1 : ℤ), (a1 : ℤ)], (0 : ℤ) ≤ x := by
    intro x hx
    simp only [List.mem_cons, List.not_mem_nil, or_false] at hx
    rcases hx with rfl|rfl|rfl|rfl|rfl|rfl|rfl|rfl|rfl|rfl|rfl|rfl|rfl|rfl|rfl|rfl <;> omega
  have hn2 : ∀ x ∈ [s2 1, s2 2, s2 3, s2 4, s2 5, s2 6, s2 7, s2 8, s2 9, s2 10, s2 11, s2 12, s2 13, (pt2 : ℤ), (dt2 : ℤ), (a2 : ℤ)], (0 : ℤ) ≤ x := by
    intro x hx
    simp only [List.mem_cons, List.not_mem_nil, or_false] at hx
    rcases hx with rfl|rfl|rfl|rfl|rfl|rfl|rfl|rfl|rfl|rfl|rfl|rfl|rfl|rfl|rfl|rfl <;> omega
  refine ⟨?_, ?_, ?_⟩
  · intro heq
    rw [RD.get_state_hash_eq, RD.get_state_hash_eq] at heq
    have hP1 : 0 ≤ RD.pack100 [s1 1, s1 2, s1 3, s1 4, s1 5, s1 6, s1 7, s1 8, s1 9, s1 10, s1 11, s1 12, s1 13, (pt1 : ℤ), (dt1 : ℤ), (a1 : ℤ)] := RD.pack100_nonneg _ hn1
    have hP2 : 0 ≤ RD.pack100 [s2 1, s2 2, s2 3, s2 4, s2 5, s2 6, s2 7, s2 8, s2 9, s2 10, s2 11, s2 12, s2 13, (pt2 : ℤ), (dt2 : ℤ), (a2 : ℤ)] := RD.pack100_nonneg _ hn2
    have hmm : (m1 : ℤ) = (m2 : ℤ) ∧
        RD.pack100 [s1 1, s1 2, s1 3, s1 4, s1 5, s1 6, s1 7, s1 8, s1 9, s1 10, s1 11, s1 12, s1 13, (pt1 : ℤ), (dt1 : ℤ), (a1 : ℤ)] = RD.pack100 [s2 1, s2 2, s2 3, s2 4, s2 5, s2 6, s2 7, s2 8, s2 9, s2 10, s2 11, s2 12, s2 13, (pt2 : ℤ), (dt2 : ℤ), (a2 : ℤ)] := by
      constructor <;> omega
    have hL : ([s1 1, s1 2, s1 3, s1 4, s1 5, s1 6, s1 7, s1 8, s1 9, s1 10, s1 11, s1 12, s1 13, (pt1 : ℤ), (dt1 : ℤ), (a1 : ℤ)] : List ℤ) = [s2 1, s2 2, s2 3, s2 4, s2 5, s2 6, s2 7, s2 8, s2 9, s2 10, s2 11, s2 12, s2 13, (pt2 : ℤ), (dt2 : ℤ), (a2 : ℤ)] := by
      refine RD.pack100_inj _ _ rfl hn1 hn2 ?_ ?_ hmm.2
      · intro x hx
        simp only [List.dropLast, List.mem_cons, List.not_mem_nil, or_false] at hx
        rcases hx with rfl|rfl|rfl|rfl|rfl|rfl|rfl|rfl|rfl|rfl|rfl|rfl|rfl|rfl|rfl <;> omega
      · intro x hx
        simp only [List.dropLast, List.mem_cons, List.not_mem_nil, or_false] at hx
        rcases hx with rfl|rfl|rfl|rfl|rfl|rfl|rfl|rfl|rfl|rfl|rfl|rfl|rfl|rfl|rfl <;> omega
    simp only [List.cons.injEq, and_true] at hL
    rcases hdiff with ⟨c, hc, hne⟩ | h | h | h | h
    · have hcb : 1 ≤ c ∧ c < 14 := by
        simpa [RD.cards13] using List.mem_range'_1.1 hc
      obtain ⟨hcl, hcu⟩ := hcb
      interval_cases c <;> simp_all
    · obtain ⟨-, -, -, -, -, -, -, -, -, -, -, -, -, hpt, -⟩ := hL
      exact h (by exact_mod_cast hpt)
    · obtain ⟨-, -, -, -, -, -, -, -, -, -, -, -, -, -, hdt, -⟩ := hL
      exact h (by exact_mod_cast hdt)
    · obtain ⟨-, -, -, -, -, -, -, -, -, -, -, -, -, -, -, ha⟩ := hL
      exact h (by exact_mod_cast ha)
    · exact h (by exact_mod_cast hmm.1)
  · rw [RD.get_state_hash_eq]
    have hP1 : 0 ≤ RD.pack100 [s1 1, s1 2, s1 3, s1 4, s1 5, s1 6, s1 7, s1 8, s1 9, s1 10, s1 11, s1 12, s1 13, (pt1 : ℤ), (dt1 : ℤ), (a1 : ℤ)] := RD.pack100_nonneg _ hn1
    omega
  · rw [RD.get_state_hash_eq]
    simp only [RD.pack100_cons, RD.pack100_nil]
    have h127 : (2 : ℤ) ^ 127 = 170141183460469231731687303715884105728 := by norm_num
    rw [h127]
    omega

section

attribute [local semireducible] Rat.add Rat.mul Rat.sub Rat.inv Rat.ofScientific

/-- C1: on a configuration that violates the supported envelope
(`BLACKJACK_PAYOUT ≠ 1.5` here) the constructor surfaces the corresponding
configuration message, but construction still succeeds and returns a solver
state — the `# Raise error` branches only print and fall through — while a
conforming configuration produces no message. -/
theorem claim_C1_cinit_total :
    (RD.cinit RD.R_bad (fun x => x)).1 = [RD.CfgError.blackjack_payout_exception] ∧
    (RD.cinit RD.R0 (fun x => x)).1 = [] := by
  refine ⟨by decide, by decide⟩

/-- C2 counterexample: with a caller-supplied utility function that is
identically zero every comparison ties; on the one-card shoe at hard 20
against a 7 the hit-stand branch of `distr_hit_stand_double` is the zero
vector while the returned distribution is the double branch (unit mass at
cell 4), so on a tie the *first* operand is not kept. -/
theorem claim_C2_counterexample :
    ((RD.distr_hit_stand 59 RD.cfg0z RD.shoe1 20 0 7).map fun r =>
        (List.range 17).map r.1) =
      some [0, 0, 0, 0, 0, 0, 0, 0, 0, 0, 0, 0, 0, 0, 0, 0, 0] ∧
    ((RD.distr_hit_stand_double 60 RD.cfg0z RD.shoe1 20 0 7).map fun r =>
        (List.range 17).map r.1) =
      some [0, 0, 0, 0, 1, 0, 0, 0, 0, 0, 0, 0, 0, 0, 0, 0, 0] ∧
    ((RD.distr_hit_stand 59 RD.cfg0z RD.shoe1 20 0 7).map fun r =>
        RD.distribution_value RD.cfg0z r.1) = some 0 ∧
    ((RD.distr_hit_stand_double 60 RD.cfg0z RD.shoe1 20 0 7).map fun r =>
        RD.distribution_value RD.cfg0z r.1) = some 0 ∧
    ([0, 0, 0, 0, 1, 0, 0, 0, 0, 0, 0, 0, 0, 0, 0, 0, 0] : List ℚ) ≠
      [0, 0, 0, 0, 0, 0, 0, 0, 0, 0, 0, 0, 0, 0, 0, 0, 0] := by
  refine ⟨by decide, by decide, by decide, by decide, by decide⟩

/-- C2 witness: the amended choice rule applied on the one-card shoe, where
the utility table is identically zero and the tie keeps the double branch. -/
theorem claim_C2_amended_choice_rule_witness :
    RD.distr_hit_stand_double 60 RD.cfg0z RD.shoe1 20 0 7 =
      some (RD.c2dRes.1, RD.c2dRes.2) :=
  (claim_C2_amended_choice_rule.2 59 RD.cfg0z RD.shoe1 20 0 7 RD.c2hsRes.1 RD.c2hsRes.2
      RD.c2dRes.1 RD.c2dRes.2 (by norm_num) (by norm_num) rfl rfl).2 (by decide)

/-- C3 witness: a concrete `distr_hit` run hands back its input shoe. -/
theorem claim_C3_shoe_conservation_witness :
    RD.distr_hit 20 RD.cfg0 RD.shoeE 12 0 5 = some (RD.c3res.1, RD.shoeE) := by
  have h : RD.distr_hit 20 RD.cfg0 RD.shoeE 12 0 5 = some (RD.c3res.1, RD.c3res.2) := rfl
  have e := claim_C3_shoe_conservation.1 20 RD.cfg0 RD.shoeE 12 0 5 RD.c3res.1 RD.c3res.2 h
  rw [← e]
  exact h

/-- C4 counterexample: `distr_hit` succeeds on the empty shoe at hard 12
against a 5 — a state the bettor reaches from a three-card shoe — and the
17 cells of its result sum to 0, not 1. -/
theorem claim_C4_counterexample :
    (RD.distr_hit 20 RD.cfg0 RD.shoeE 12 0 5).map (fun r => RD.massOf r.1) = some 0 ∧
    (0 : ℚ) ≠ 1 := by
  refine ⟨by decide, by norm_num⟩

/-- C4 witness: on a shoe with 18 cards of every rank, hitting a hard 21
yields a result of total mass exactly 1. -/
theorem claim_C4_amended_mass_one_witness : RD.massOf RD.c4res.1 = 1 :=
  claim_C4_amended_mass_one.1 20 RD.cfg0 RD.shoe18 21 0 5 RD.c4res.1 RD.c4res.2
    (by decide) (by norm_num) rfl

/-- C5 witness: the plain ratio at banned value 0 and the zeroed mass of a
banned ace. -/
theorem claim_C5_card_probability_witness :
    RD.card_probability RD.shoe1 5 0 =
      (RD.shoe1 5 : ℚ) / RD.sumOver RD.cards13 (fun i => (RD.shoe1 i : ℚ)) ∧
    RD.card_probability RD.shoe1 1 11 = 0 :=
  ⟨claim_C5_card_probability.1 RD.shoe1 5 (by decide),
    claim_C5_card_probability.2.1 RD.shoe1 1 11 (by norm_num) rfl⟩

/-- C6 witness: two stocked shoes differing only in the deuce count hash to
different values inside the `int128` range. -/
theorem claim_C6_hash_injective_witness :
    RD.get_state_hash RD.shoe18 12 0 5 2 ≠ RD.get_state_hash RD.shoe18b 12 0 5 2 ∧
    0 ≤ RD.get_state_hash RD.shoe18 12 0 5 2 ∧
    RD.get_state_hash RD.shoe18 12 0 5 2 < 2 ^ 127 :=
  claim_C6_hash_injective RD.shoe18 RD.shoe18b 12 12 5 5 0 0 2 2 (by decide) (by decide)
    (by norm_num) (by norm_num) (by norm_num) (by norm_num) (by norm_num) (by norm_num)
    (by norm_num) (by norm_num) (by norm_num) (by norm_num)
    (Or.inl ⟨2, by decide, by decide⟩)

end
